import Mathlib

/-!
Verification of the window-based aggregation and pattern-classification core
of the PolymarketBTC15mAssistant repository.

The JavaScript sources are shallowly embedded: JavaScript numbers are
modelled as exact rationals (`Rat`), JSON values as the inductive `JValue`,
nullable values as `Option`, and in-place mutation as explicit state
passing.  Definition names follow the source (patterns5mCore.js,
stats5mPatterns.js, replayServer.js, updownDataCollector.js).
-/

set_option maxHeartbeats 1000000

set_option maxRecDepth 4000

namespace PolyBtc

/-- A normalized price point as built by the loaders: timestamp in epoch
milliseconds and a price, both JavaScript numbers (modelled as rationals). -/
structure Point where
  ts : Rat
  price : Rat
deriving Repr, DecidableEq, Inhabited

/-- Ordering used by the JS comparator `(a, b) => a.ts - b.ts`. -/
def ptLe (a b : Point) : Prop := a.ts ≤ b.ts

instance : DecidableRel ptLe := fun a b => inferInstanceAs (Decidable (a.ts ≤ b.ts))

instance : IsTotal Point ptLe := ⟨fun a b => le_total a.ts b.ts⟩

instance : IsTrans Point ptLe := ⟨fun _ _ _ h h2 => le_trans h h2⟩

instance : IsRefl Point ptLe := ⟨fun a => le_refl a.ts⟩

/-- Translation of `sortPoints` (patterns5mCore.js line 91): sort a point
list by ascending timestamp.  The JS comparator `(a, b) => a.ts - b.ts` is a
stable sort by `ts`, modelled with the stable `List.insertionSort`. -/
def sortPoints (points : List Point) : List Point :=
  points.insertionSort ptLe

/-- Translation of `computeCoverageMs` (patterns5mCore.js line 95): zero for
at most one point, otherwise the timestamp of the last point minus the
timestamp of the first point. -/
def computeCoverageMs (points : List Point) : Rat :=
  if points.length ≤ 1 then 0
  else (points.getLastD default).ts - (points.headD default).ts

/-- The `coverage` record computed by `finalizeWindow`. -/
structure Coverage where
  upCoverageMs : Rat
  downCoverageMs : Rat
  oddsCoverageMs : Rat
  btcCoverageMs : Rat
deriving Repr, DecidableEq, Inhabited

/-- Translation of the window object built by `newWindow`
(patterns5mCore.js line 260).  `sidePoints.up` and `sidePoints.down` are
flattened into the fields `upPoints` and `downPoints`. -/
structure Window where
  date : String
  windowId : String
  marketSlug : String
  startMs : Rat
  endMs : Rat
  upPoints : List Point
  downPoints : List Point
  btcPoints : List Point
  coverage : Coverage
  isComplete : Bool
deriving Repr, DecidableEq, Inhabited

/-- Result of `parseMarketMeta` (patterns5mCore.js line 39). -/
structure MarketMeta where
  minutes : Nat
  windowMs : Rat
  startMs : Rat
  endMs : Rat
deriving Repr, DecidableEq, Inhabited

/-- Translation of `newWindow` (patterns5mCore.js line 260). -/
def newWindow (date windowId marketSlug : String) (meta : MarketMeta) : Window :=
  { date := date
    windowId := windowId
    marketSlug := marketSlug
    startMs := meta.startMs
    endMs := meta.endMs
    upPoints := []
    downPoints := []
    btcPoints := []
    coverage := ⟨0, 0, 0, 0⟩
    isComplete := false }

/-- Translation of `COMPLETE_MIN_MS` (patterns5mCore.js line 3):
4 minutes in milliseconds. -/
def COMPLETE_MIN_MS : Rat := 4 * 60 * 1000

/-- Translation of `finalizeWindow` (patterns5mCore.js lines 282-299):
sort the three series, compute the coverage record and the completeness
flag. -/
def finalizeWindow (w : Window) : Window :=
  let up := sortPoints w.upPoints
  let down := sortPoints w.downPoints
  let btc := sortPoints w.btcPoints
  let upCoverageMs := computeCoverageMs up
  let downCoverageMs := computeCoverageMs down
  let oddsCoverageMs := max upCoverageMs downCoverageMs
  let btcCoverageMs := computeCoverageMs btc
  let isComplete :=
    decide (COMPLETE_MIN_MS ≤ btcCoverageMs) && decide (COMPLETE_MIN_MS ≤ oddsCoverageMs)
  { w with
    upPoints := up
    downPoints := down
    btcPoints := btc
    coverage :=
      { upCoverageMs := upCoverageMs
        downCoverageMs := downCoverageMs
        oddsCoverageMs := oddsCoverageMs
        btcCoverageMs := btcCoverageMs }
    isComplete := isComplete }

/-- A window whose btc series and up series each span exactly 240000 ms. -/
def exactCoverageWindow : Window :=
  { newWindow "2026-02-18" "btc-updown-5m-1771427100" "btc-updown-5m-1771427100"
      ⟨5, 300000, 1771427100000, 1771427400000⟩ with
    upPoints := [⟨1771427100000, 1/2⟩, ⟨1771427340000, 1/2⟩]
    btcPoints := [⟨1771427100000, 68000⟩, ⟨1771427340000, 68000⟩] }

/-- Like `exactCoverageWindow` but the btc series spans only 239999 ms. -/
def shortBtcWindow : Window :=
  { exactCoverageWindow with
    btcPoints := [⟨1771427100000, 68000⟩, ⟨1771427339999, 68000⟩] }

/-- Like `exactCoverageWindow` but both side series span only 239999 ms. -/
def shortOddsWindow : Window :=
  { exactCoverageWindow with
    upPoints := [⟨1771427100000, 1/2⟩, ⟨1771427339999, 1/2⟩] }

/-- C1: after `finalizeWindow` has sorted the series and computed coverage,
`isComplete` holds iff both the btc coverage and the odds coverage
(the maximum of up and down coverage) are at least `COMPLETE_MIN_MS`
= 240000 ms; a window with both coverages exactly 240000 ms is complete and
a window with 239999 ms on either axis is not. -/
theorem finalizeWindow_isComplete_iff :
    COMPLETE_MIN_MS = 240000 ∧
    (∀ w : Window,
      ((finalizeWindow w).isComplete = true ↔
        COMPLETE_MIN_MS ≤ (finalizeWindow w).coverage.btcCoverageMs ∧
        COMPLETE_MIN_MS ≤ (finalizeWindow w).coverage.oddsCoverageMs) ∧
      (finalizeWindow w).coverage.oddsCoverageMs =
        max (finalizeWindow w).coverage.upCoverageMs
          (finalizeWindow w).coverage.downCoverageMs) ∧
    (finalizeWindow exactCoverageWindow).isComplete = true ∧
    (finalizeWindow exactCoverageWindow).coverage.btcCoverageMs = 240000 ∧
    (finalizeWindow exactCoverageWindow).coverage.oddsCoverageMs = 240000 ∧
    (finalizeWindow shortBtcWindow).isComplete = false ∧
    (finalizeWindow shortBtcWindow).coverage.btcCoverageMs = 239999 ∧
    (finalizeWindow shortOddsWindow).isComplete = false ∧
    (finalizeWindow shortOddsWindow).coverage.oddsCoverageMs = 239999 := by
  refine ⟨by norm_num [COMPLETE_MIN_MS], fun w => ⟨?_, ?_⟩, ?_, ?_, ?_, ?_, ?_, ?_, ?_⟩
  · simp [finalizeWindow]
  · simp [finalizeWindow]
  all_goals
    norm_num [finalizeWindow, exactCoverageWindow, shortBtcWindow, shortOddsWindow,
      newWindow, sortPoints, List.insertionSort, List.orderedInsert, ptLe,
      computeCoverageMs, COMPLETE_MIN_MS, List.getLastD, List.headD, max_def]

/-- Smallest timestamp of a nonempty point list (0 for the empty list). -/
def minTs : List Point → Rat
  | [] => 0
  | p :: rest => rest.foldl (fun m q => min m q.ts) p.ts

/-- Largest timestamp of a nonempty point list (0 for the empty list). -/
def maxTs : List Point → Rat
  | [] => 0
  | p :: rest => rest.foldl (fun m q => max m q.ts) p.ts

lemma foldl_min_le_init (rest : List Point) :
    ∀ a : Rat, rest.foldl (fun m q => min m q.ts) a ≤ a := by
  induction rest with
  | nil => intro a; simp
  | cons q r ih =>
    intro a
    calc (q :: r).foldl (fun m q => min m q.ts) a
        = r.foldl (fun m q => min m q.ts) (min a q.ts) := rfl
      _ ≤ min a q.ts := ih _
      _ ≤ a := min_le_left _ _

lemma foldl_min_le_mem (rest : List Point) :
    ∀ (a : Rat) (x : Point), x ∈ rest → rest.foldl (fun m q => min m q.ts) a ≤ x.ts := by
  induction rest with
  | nil => intro a x hx; cases hx
  | cons q r ih =>
    intro a x hx
    rcases List.mem_cons.mp hx with h | h
    · subst h
      calc (x :: r).foldl (fun m q => min m q.ts) a
          = r.foldl (fun m q => min m q.ts) (min a x.ts) := rfl
        _ ≤ min a x.ts := foldl_min_le_init r _
        _ ≤ x.ts := min_le_right _ _
    · exact ih (min a q.ts) x h

lemma foldl_min_eq_or_mem (rest : List Point) :
    ∀ a : Rat, rest.foldl (fun m q => min m q.ts) a = a ∨
      ∃ x ∈ rest, rest.foldl (fun m q => min m q.ts) a = x.ts := by
  induction rest with
  | nil => intro a; left; rfl
  | cons q r ih =>
    intro a
    have hstep : (q :: r).foldl (fun m q => min m q.ts) a
        = r.foldl (fun m q => min m q.ts) (min a q.ts) := rfl
    rcases ih (min a q.ts) with h | ⟨x, hx, hval⟩
    · rcases min_cases a q.ts with ⟨hm, _⟩ | ⟨hm, _⟩
      · left; rw [hstep, h, hm]
      · right; exact ⟨q, List.mem_cons_self _ _, by rw [hstep, h, hm]⟩
    · right; exact ⟨x, List.mem_cons_of_mem _ hx, by rw [hstep, hval]⟩

lemma init_le_foldl_max (rest : List Point) :
    ∀ a : Rat, a ≤ rest.foldl (fun m q => max m q.ts) a := by
  induction rest with
  | nil => intro a; simp
  | cons q r ih =>
    intro a
    calc a ≤ max a q.ts := le_max_left _ _
      _ ≤ r.foldl (fun m q => max m q.ts) (max a q.ts) := ih _
      _ = (q :: r).foldl (fun m q => max m q.ts) a := rfl

lemma mem_le_foldl_max (rest : List Point) :
    ∀ (a : Rat) (x : Point), x ∈ rest → x.ts ≤ rest.foldl (fun m q => max m q.ts) a := by
  induction rest with
  | nil => intro a x hx; cases hx
  | cons q r ih =>
    intro a x hx
    rcases List.mem_cons.mp hx with h | h
    · subst h
      calc x.ts ≤ max a x.ts := le_max_right _ _
        _ ≤ r.foldl (fun m q => max m q.ts) (max a x.ts) := init_le_foldl_max r _
        _ = (x :: r).foldl (fun m q => max m q.ts) a := rfl
    · exact ih (max a q.ts) x h

lemma foldl_max_eq_or_mem (rest : List Point) :
    ∀ a : Rat, rest.foldl (fun m q => max m q.ts) a = a ∨
      ∃ x ∈ rest, rest.foldl (fun m q => max m q.ts) a = x.ts := by
  induction rest with
  | nil => intro a; left; rfl
  | cons q r ih =>
    intro a
    have hstep : (q :: r).foldl (fun m q => max m q.ts) a
        = r.foldl (fun m q => max m q.ts) (max a q.ts) := rfl
    rcases ih (max a q.ts) with h | ⟨x, hx, hval⟩
    · rcases max_cases a q.ts with ⟨hm, _⟩ | ⟨hm, _⟩
      · left; rw [hstep, h, hm]
      · right; exact ⟨q, List.mem_cons_self _ _, by rw [hstep, h, hm]⟩
    · right; exact ⟨x, List.mem_cons_of_mem _ hx, by rw [hstep, hval]⟩

lemma minTs_le {l : List Point} (hne : l ≠ []) {x : Point} (hx : x ∈ l) :
    minTs l ≤ x.ts := by
  cases l with
  | nil => exact absurd rfl hne
  | cons p rest =>
    rcases List.mem_cons.mp hx with h | h
    · subst h; exact foldl_min_le_init rest _
    · exact foldl_min_le_mem rest _ _ h

lemma minTs_mem {l : List Point} (hne : l ≠ []) :
    ∃ x ∈ l, minTs l = x.ts := by
  cases l with
  | nil => exact absurd rfl hne
  | cons p rest =>
    rcases foldl_min_eq_or_mem rest p.ts with h | ⟨x, hx, hval⟩
    · exact ⟨p, List.mem_cons_self _ _, h⟩
    · exact ⟨x, List.mem_cons_of_mem _ hx, hval⟩

lemma le_maxTs {l : List Point} (hne : l ≠ []) {x : Point} (hx : x ∈ l) :
    x.ts ≤ maxTs l := by
  cases l with
  | nil => exact absurd rfl hne
  | cons p rest =>
    rcases List.mem_cons.mp hx with h | h
    · subst h; exact init_le_foldl_max rest _
    · exact mem_le_foldl_max rest _ _ h

lemma maxTs_mem {l : List Point} (hne : l ≠ []) :
    ∃ x ∈ l, maxTs l = x.ts := by
  cases l with
  | nil => exact absurd rfl hne
  | cons p rest =>
    rcases foldl_max_eq_or_mem rest p.ts with h | ⟨x, hx, hval⟩
    · exact ⟨p, List.mem_cons_self _ _, h⟩
    · exact ⟨x, List.mem_cons_of_mem _ hx, hval⟩

lemma sortPoints_perm (l : List Point) : (sortPoints l).Perm l :=
  List.perm_insertionSort ptLe l

lemma sortPoints_sorted (l : List Point) : List.Sorted ptLe (sortPoints l) :=
  List.sorted_insertionSort ptLe l

lemma sortPoints_length (l : List Point) : (sortPoints l).length = l.length :=
  (sortPoints_perm l).length_eq

lemma headD_mem {l : List Point} (hne : l ≠ []) : l.headD default ∈ l := by
  cases l with
  | nil => exact absurd rfl hne
  | cons p rest => exact List.mem_cons_self _ _

lemma getLastD_mem {l : List Point} (hne : l ≠ []) : l.getLastD default ∈ l := by
  induction l with
  | nil => exact absurd rfl hne
  | cons p rest ih =>
    cases rest with
    | nil => simp [List.getLastD]
    | cons q r =>
      have hmem := ih (by simp)
      have hstep : (p :: q :: r).getLastD default = (q :: r).getLastD default := by
        simp [List.getLastD]
      rw [hstep]
      exact List.mem_cons_of_mem p hmem

lemma sorted_headD_le {l : List Point} (hs : List.Sorted ptLe l) {x : Point}
    (hx : x ∈ l) : (l.headD default).ts ≤ x.ts := by
  cases l with
  | nil => cases hx
  | cons p rest =>
    rcases List.mem_cons.mp hx with h | h
    · subst h; exact le_refl _
    · exact (List.pairwise_cons.mp hs).1 x h

lemma sorted_le_getLastD {l : List Point} (hs : List.Sorted ptLe l) {x : Point}
    (hx : x ∈ l) : x.ts ≤ (l.getLastD default).ts := by
  induction l with
  | nil => cases hx
  | cons p rest ih =>
    rcases List.pairwise_cons.mp hs with ⟨hp, hrest⟩
    cases rest with
    | nil =>
      rcases List.mem_cons.mp hx with h | h
      · subst h; exact le_refl _
      · cases h
    | cons q r =>
      have hlast : (p :: q :: r).getLastD default = (q :: r).getLastD default := by
        simp [List.getLastD]
      rcases List.mem_cons.mp hx with h | h
      · subst h
        rw [hlast]
        have hmem : (q :: r).getLastD default ∈ q :: r := getLastD_mem (by simp)
        exact hp _ hmem
      · rw [hlast]; exact ih hrest h

/-- The span form of coverage after sorting: for a list with at least two
points it is the largest timestamp minus the smallest one. -/
lemma cov_sort_span (l : List Point) :
    computeCoverageMs (sortPoints l) =
      if l.length ≤ 1 then 0 else maxTs l - minTs l := by
  by_cases h : l.length ≤ 1
  · rw [if_pos h]
    unfold computeCoverageMs
    rw [if_pos (by rw [sortPoints_length]; exact h)]
  · rw [if_neg h]
    have hne : l ≠ [] := by
      intro hcontra; subst hcontra; exact h (by simp)
    have hsne : sortPoints l ≠ [] := by
      intro hcontra
      have := sortPoints_length l
      rw [hcontra] at this
      exact hne (List.length_eq_zero.mp this.symm)
    unfold computeCoverageMs
    rw [if_neg (by rw [sortPoints_length]; exact h)]
    have hperm := sortPoints_perm l
    have hsorted := sortPoints_sorted l
    have hhead : ((sortPoints l).headD default).ts = minTs l := by
      apply le_antisymm
      · rcases minTs_mem hne with ⟨x, hx, hval⟩
        rw [hval]
        exact sorted_headD_le hsorted (hperm.mem_iff.mpr hx)
      · exact minTs_le hne (hperm.mem_iff.mp (headD_mem hsne))
    have hlast : ((sortPoints l).getLastD default).ts = maxTs l := by
      apply le_antisymm
      · exact le_maxTs hne (hperm.mem_iff.mp (getLastD_mem hsne))
      · rcases maxTs_mem hne with ⟨x, hx, hval⟩
        rw [hval]
        exact sorted_le_getLastD hsorted (hperm.mem_iff.mpr hx)
    rw [hhead, hlast]

lemma cov_sort_nonneg (l : List Point) : 0 ≤ computeCoverageMs (sortPoints l) := by
  rw [cov_sort_span]
  by_cases h : l.length ≤ 1
  · rw [if_pos h]
  · rw [if_neg h]
    have hne : l ≠ [] := by
      intro hcontra; subst hcontra; exact h (by simp)
    have hmm : minTs l ≤ maxTs l := by
      cases l with
      | nil => exact absurd rfl hne
      | cons p rest =>
        exact le_trans (minTs_le hne (List.mem_cons_self _ _))
          (le_maxTs hne (List.mem_cons_self _ _))
    exact sub_nonneg.mpr hmm

lemma minTs_append_singleton {l : List Point} (hne : l ≠ []) (x : Point) :
    minTs (l ++ [x]) = min (minTs l) x.ts := by
  cases l with
  | nil => exact absurd rfl hne
  | cons p rest =>
    show (rest ++ [x]).foldl (fun m q => min m q.ts) p.ts
      = min (rest.foldl (fun m q => min m q.ts) p.ts) x.ts
    rw [List.foldl_append]
    rfl

lemma maxTs_append_singleton {l : List Point} (hne : l ≠ []) (x : Point) :
    maxTs (l ++ [x]) = max (maxTs l) x.ts := by
  cases l with
  | nil => exact absurd rfl hne
  | cons p rest =>
    show (rest ++ [x]).foldl (fun m q => max m q.ts) p.ts
      = max (rest.foldl (fun m q => max m q.ts) p.ts) x.ts
    rw [List.foldl_append]
    rfl

/-- C4: coverage after time-sorting is the span between the largest and the
smallest timestamp (zero for at most one point), and appending an extra
point to a series never decreases the coverage of the sorted series. -/
theorem coverage_span_and_monotone :
    (∀ ps : List Point,
      computeCoverageMs (sortPoints ps) =
        if ps.length ≤ 1 then 0 else maxTs ps - minTs ps) ∧
    (∀ (ps : List Point) (p : Point),
      computeCoverageMs (sortPoints ps) ≤ computeCoverageMs (sortPoints (ps ++ [p]))) := by
  refine ⟨cov_sort_span, fun ps p => ?_⟩
  by_cases h : ps.length ≤ 1
  · calc computeCoverageMs (sortPoints ps) = 0 := by rw [cov_sort_span, if_pos h]
      _ ≤ computeCoverageMs (sortPoints (ps ++ [p])) := cov_sort_nonneg _
  · have hne : ps ≠ [] := by
      intro hcontra; subst hcontra; exact h (by simp)
    have happ : ¬ (ps ++ [p]).length ≤ 1 := by
      simp only [List.length_append, List.length_cons, List.length_nil]
      omega
    rw [cov_sort_span, cov_sort_span, if_neg h, if_neg happ,
      minTs_append_singleton hne, maxTs_append_singleton hne]
    exact sub_le_sub (le_max_left _ _) (min_le_left _ _)

/-- A JSON-like JavaScript value.  Objects are association lists in key
insertion order (JavaScript objects cannot hold duplicate keys). -/
inductive JValue where
  | null
  | bool (b : Bool)
  | num (q : Rat)
  | str (s : String)
  | arr (elems : List JValue)
  | obj (fields : List (String × JValue))
deriving Inhabited

/-- JS `String.prototype.trim()`: strip leading and trailing whitespace
(modelled over the ASCII whitespace of `Char.isWhitespace`). -/
def jsTrim (s : String) : String :=
  String.mk (((s.data.dropWhile Char.isWhitespace).reverse.dropWhile Char.isWhitespace).reverse)

/-- Decimal rendering of a natural number, as JavaScript would print it. -/
def natRender (n : Nat) : String :=
  if n = 0 then "0" else String.mk (((Nat.digits 10 n).map Nat.digitChar).reverse)

/-- Decimal rendering of an integer. -/
def intRender (i : Int) : String :=
  if i < 0 then "-" ++ natRender i.natAbs else natRender i.natAbs

/-- Rendering of a JS number by `JSON.stringify`.  JavaScript prints the
shortest decimal that round-trips, which is injective on numbers; it is
modelled by an injective exact rendering of the rational value. -/
def ratRender (q : Rat) : String :=
  if q.den = 1 then intRender q.num else intRender q.num ++ "/" ++ natRender q.den

/-- One character of `JSON.stringify` string escaping.  Control-character
escapes are not modelled; no string in scope contains them. -/
def escapeChar (c : Char) : String :=
  if c = '\"' then "\\\"" else if c = '\\' then "\\\\" else String.mk [c]

/-- Rendering of a string literal by `JSON.stringify`. -/
def strRender (s : String) : String :=
  "\"" ++ String.join (s.data.map escapeChar) ++ "\""

/-- Property list of a value for JS object-spread and property lookup:
objects expose their fields, arrays expose index keys. -/
def spreadFields : JValue → List (String × JValue)
  | .obj fs => fs
  | .arr xs => xs.enum.map (fun p => (natRender p.1, p.2))
  | _ => []

/-- First binding of a key in an association list (JS objects cannot have
duplicate keys, so first = only). -/
def lookupField (fs : List (String × JValue)) (k : String) : Option JValue :=
  match fs with
  | [] => none
  | (k2, v) :: rest => if k2 = k then some v else lookupField rest k

/-- JS property read `v?.[k]` for the values appearing in the sources. -/
def jGet (v : JValue) (k : String) : Option JValue :=
  lookupField (spreadFields v) k

/-- JS `typeof v === "object" && v` (arrays included, null excluded). -/
def jIsObjLike : JValue → Bool
  | .obj _ => true
  | .arr _ => true
  | _ => false

/-- JS object spread `{...base, ...overlay}`: base keys in order with
overlay values when present, then overlay-only keys in overlay order. -/
def objMerge (base overlay : List (String × JValue)) : List (String × JValue) :=
  base.map (fun p => (p.1, (lookupField overlay p.1).getD p.2)) ++
    overlay.filter (fun p => (lookupField base p.1).isNone)

/-- Lexicographic comparison of character lists by code point, as the JS
default sort comparator orders strings (code points = UTF-16 code units for
the basic plane, which covers every key in scope). -/
def charListLe : List Char → List Char → Bool
  | [], _ => true
  | _ :: _, [] => false
  | c :: cs, d :: ds =>
    if c.toNat < d.toNat then true
    else if d.toNat < c.toNat then false
    else charListLe cs ds

/-- String comparison for the key sort. -/
def strLeB (a b : String) : Bool := charListLe a.data b.data

/-- Insertion step for sorting object keys. -/
def insertKey (k : String) : List String → List String
  | [] => [k]
  | k2 :: rest => if strLeB k k2 then k :: k2 :: rest else k2 :: insertKey k rest

/-- JS `Array.prototype.sort()` on key lists: lexicographic string order
(insertion sort; key lists of JS objects are duplicate-free). -/
def sortKeys : List String → List String
  | [] => []
  | k :: rest => insertKey k (sortKeys rest)

/-- JS `Array.prototype.join(",")`. -/
def joinComma : List String → String
  | [] => ""
  | [x] => x
  | x :: rest => x ++ "," ++ joinComma rest

lemma sizeOf_lookupField_getD (fs : List (String × JValue)) (k : String) :
    sizeOf ((lookupField fs k).getD JValue.null) < 1 + sizeOf fs := by
  induction fs with
  | nil => simp [lookupField]
  | cons p rest ih =>
    obtain ⟨k2, v⟩ := p
    by_cases h : k2 = k
    · simp only [lookupField, if_pos h, Option.getD_some]
      simp
      omega
    · simp only [lookupField, if_neg h]
      have := ih
      simp only [List.cons.sizeOf_spec]
      omega

/-- Translation of `stableStringify` (patterns5mCore.js lines 130-140):
canonical JSON serialization with object keys visited in sorted order. -/
def stableStringify : JValue → String
  | .null => "null"
  | .bool b => if b then "true" else "false"
  | .num q => ratRender q
  | .str s => strRender s
  | .arr elems =>
    "[" ++ joinComma (elems.attach.map (fun x => stableStringify x.1)) ++ "]"
  | .obj fs =>
    let entries :=
      (sortKeys (fs.map Prod.fst)).map (fun k => (k, (lookupField fs k).getD JValue.null))
    "\x7b" ++
      joinComma (entries.attach.map
        (fun e => strRender e.1.1 ++ ":" ++ stableStringify e.1.2)) ++ "\x7d"
termination_by v => sizeOf v
decreasing_by
  · exact Nat.lt_trans (List.sizeOf_lt_of_mem x.2)
      (by rw [JValue.arr.sizeOf_spec]; omega)
  · obtain ⟨⟨k0, v0⟩, he⟩ := e
    rcases List.mem_map.mp he with ⟨k, _, hk⟩
    have hv : v0 = (lookupField fs k).getD JValue.null := (Prod.mk.injEq _ _ _ _ ▸ hk).2.symm
    subst hv
    have := sizeOf_lookupField_getD fs k
    simp only [JValue.obj.sizeOf_spec]
    omega

/-- Identifier of a built-in pattern. -/
inductive PatternId where
  | extremeReversal
  | lateVolatility
  | peacefulFinish
deriving DecidableEq, Repr, Inhabited

/-- The JS string id of a pattern. -/
def PatternId.key : PatternId → String
  | .extremeReversal => "extremeReversal"
  | .lateVolatility => "lateVolatility"
  | .peacefulFinish => "peacefulFinish"

/-- Translation of `PATTERN_PRIORITY` (patterns5mCore.js line 4). -/
def PATTERN_PRIORITY : List PatternId :=
  [.extremeReversal, .lateVolatility, .peacefulFinish]

/-- Default `params` object of a pattern, in insertion order, from
`DEFAULT_PATTERN_CONFIG` (patterns5mCore.js lines 7-32). -/
def defaultParams : PatternId → List (String × JValue)
  | .extremeReversal =>
    [("maxPriceThreshold", .num (98/100)), ("finalPriceThreshold", .num (1/100))]
  | .lateVolatility =>
    [("highThreshold", .num (8/10)), ("lowThreshold", .num (4/10))]
  | .peacefulFinish =>
    [("finalPriceThreshold", .num (99/100)), ("maxDrawdownAbsThreshold", .num (1/10))]

/-- Translation of `DEFAULT_PATTERN_CONFIG` (patterns5mCore.js lines 7-32). -/
def DEFAULT_PATTERN_CONFIG : JValue :=
  .obj [("patternSetVersion", .str "1"),
        ("patterns", .obj (PATTERN_PRIORITY.map
          (fun id => (id.key, JValue.obj
            [("enabled", .bool true), ("params", .obj (defaultParams id))]))))]

/-- The `enabled`/`params` entry produced for one pattern id by the loop of
`normalizePatternConfig` (patterns5mCore.js lines 119-126): defaults from
the cloned `DEFAULT_PATTERN_CONFIG`, overlaid from `raw.patterns[id]` when
that is a non-null object. -/
def normalizeEntry (raw : JValue) (id : PatternId) : JValue :=
  match (jGet raw "patterns").bind (fun p => jGet p id.key) with
  | some s =>
    if jIsObjLike s then
      let enabled := match jGet s "enabled" with
        | some (.bool b) => b
        | _ => true
      let params := match jGet s "params" with
        | some p => if jIsObjLike p then objMerge (defaultParams id) (spreadFields p)
                    else defaultParams id
        | none => defaultParams id
      .obj [("enabled", .bool enabled), ("params", .obj params)]
    else .obj [("enabled", .bool true), ("params", .obj (defaultParams id))]
  | none => .obj [("enabled", .bool true), ("params", .obj (defaultParams id))]

/-- Translation of `normalizePatternConfig` (patterns5mCore.js lines
114-128). -/
def normalizePatternConfig (raw : JValue) : JValue :=
  let version := match jGet raw "patternSetVersion" with
    | some (.str s) => if jsTrim s = "" then "1" else jsTrim s
    | _ => "1"
  .obj [("patternSetVersion", .str version),
        ("patterns", .obj (PATTERN_PRIORITY.map
          (fun id => (id.key, normalizeEntry raw id))))]

/-- Key list of the `patterns` object of a config value. -/
def configPatternsKeys (cfg : JValue) : List String :=
  match jGet cfg "patterns" with
  | some (.obj fs) => fs.map Prod.fst
  | _ => []

/-- The `enabled` property of one pattern entry of a config value. -/
def configEnabled (cfg : JValue) (id : PatternId) : Option JValue :=
  ((jGet cfg "patterns").bind (fun p => jGet p id.key)).bind (fun e => jGet e "enabled")

/-- Key list of the `params` object of one pattern entry. -/
def configParamKeys (cfg : JValue) (id : PatternId) : List String :=
  match ((jGet cfg "patterns").bind (fun p => jGet p id.key)).bind (fun e => jGet e "params") with
  | some (.obj fs) => fs.map Prod.fst
  | _ => []

/-- The `enabled` flag the normalizer keeps for a pattern id: the raw value
when it is a boolean, the default `true` otherwise. -/
def effectiveEnabled (raw : JValue) (id : PatternId) : Bool :=
  match (jGet raw "patterns").bind (fun p => jGet p id.key) with
  | some s =>
    if jIsObjLike s then
      match jGet s "enabled" with
      | some (.bool b) => b
      | _ => true
    else true
  | none => true

lemma objMerge_keys_superset (base overlay : List (String × JValue)) (k : String)
    (hk : k ∈ base.map Prod.fst) : k ∈ (objMerge base overlay).map Prod.fst := by
  unfold objMerge
  rw [List.map_append]
  apply List.mem_append_left
  rcases List.mem_map.mp hk with ⟨p, hp, hkey⟩
  exact List.mem_map.mpr ⟨(p.1, (lookupField overlay p.1).getD p.2),
    List.mem_map.mpr ⟨p, hp, rfl⟩, hkey⟩

lemma normalizeEntry_shape (raw : JValue) (id : PatternId) :
    ∃ ps : List (String × JValue),
      normalizeEntry raw id =
        .obj [("enabled", .bool (effectiveEnabled raw id)), ("params", .obj ps)] ∧
      ∀ k ∈ (defaultParams id).map Prod.fst, k ∈ ps.map Prod.fst := by
  unfold normalizeEntry effectiveEnabled
  rcases hsrc : (jGet raw "patterns").bind (fun p => jGet p id.key) with _ | s
  · exact ⟨defaultParams id, rfl, fun k hk => hk⟩
  · by_cases hobj : jIsObjLike s = true
    · simp only [if_pos hobj]
      rcases hp : jGet s "params" with _ | p
      · exact ⟨defaultParams id, rfl, fun k hk => hk⟩
      · by_cases hpobj : jIsObjLike p = true
        · simp only [if_pos hpobj]
          exact ⟨objMerge (defaultParams id) (spreadFields p), rfl,
            fun k hk => objMerge_keys_superset _ _ _ hk⟩
        · simp only [if_neg hpobj]
          exact ⟨defaultParams id, rfl, fun k hk => hk⟩
    · simp only [if_neg hobj]
      exact ⟨defaultParams id, rfl, fun k hk => hk⟩

/-- C10: for every input value whatsoever, `normalizePatternConfig` yields a
config whose `patterns` object has exactly the three built-in pattern ids
(unknown ids can never add a pattern), each entry carrying a boolean
`enabled` flag — the raw boolean when one was given, the default `true`
otherwise, so a non-boolean `enabled` leaves the default enablement — and a
`params` object that contains every default threshold key. -/
theorem normalizePatternConfig_shape (raw : JValue) :
    configPatternsKeys (normalizePatternConfig raw) =
      ["extremeReversal", "lateVolatility", "peacefulFinish"] ∧
    ∀ id : PatternId,
      configEnabled (normalizePatternConfig raw) id =
        some (.bool (effectiveEnabled raw id)) ∧
      ((defaultParams id).map Prod.fst).all
        (fun k => (configParamKeys (normalizePatternConfig raw) id).contains k) = true := by
  constructor
  · simp [normalizePatternConfig, configPatternsKeys, jGet, spreadFields, lookupField,
      PATTERN_PRIORITY, PatternId.key]
  · intro id
    obtain ⟨ps, hshape, hkeys⟩ := normalizeEntry_shape raw id
    have hentry : ((jGet (normalizePatternConfig raw) "patterns").bind
        (fun p => jGet p id.key)) = some (normalizeEntry raw id) := by
      cases id <;>
        simp [normalizePatternConfig, jGet, spreadFields, lookupField,
          PATTERN_PRIORITY, PatternId.key]
    constructor
    · rw [configEnabled, hentry, Option.some_bind, hshape]
      simp [jGet, spreadFields, lookupField]
    · rw [List.all_eq_true]
      intro k hk
      have hparams : configParamKeys (normalizePatternConfig raw) id = ps.map Prod.fst := by
        rw [configParamKeys, hentry, Option.some_bind, hshape]
        simp [jGet, spreadFields, lookupField]
      rw [hparams]
      exact List.elem_eq_true_of_mem (hkeys k hk)

/-- Input domain of `epochToMs` (updownDataCollector.js lines 60-80): a
Date object (carrying its epoch-ms time, `none` when invalid), a finite
number, a non-finite number (NaN or an infinity), a string trimming to a
finite number, a non-numeric string handed to the Date parser (carrying the
parse result, `none` when unparseable), a blank string, and null/undefined
or any other type. -/
inductive TsInput where
  | dateVal (timeMs : Option Rat)
  | num (q : Rat)
  | nonFiniteNum
  | numStr (q : Rat)
  | dateStr (parsedMs : Option Rat)
  | blankStr
  | otherInput
deriving Repr, DecidableEq, Inhabited

/-- The numeric branch of `epochToMs`: a value at least 5 times 10 to the
10th is already milliseconds and is floored; otherwise it is seconds and is
multiplied by 1000 before flooring. -/
def epochNumToMs (q : Rat) : Rat :=
  if 50000000000 ≤ q then ((⌊q⌋ : Int) : Rat) else ((⌊q * 1000⌋ : Int) : Rat)

/-- Translation of `epochToMs` (updownDataCollector.js lines 60-80).  The
source recurses on `Number(trimmed)` for numeric strings; that recursive
call always lands in the (finite) number branch, inlined here as
`epochNumToMs`. -/
def epochToMs : TsInput → Option Rat
  | .dateVal o => o
  | .num q => some (epochNumToMs q)
  | .nonFiniteNum => none
  | .numStr q => some (epochNumToMs q)
  | .dateStr o => o
  | .blankStr => none
  | .otherInput => none

/-- C6: for every finite numeric input the timestamp normalizer returns
floor(n) when n is at least 5 times 10 to the 10th and floor(n times 1000)
otherwise, numeric strings behave exactly like the number they trim to, and
every non-finite or unparseable input yields no timestamp; checked at the
5e10 boundary. -/
theorem epochToMs_spec :
    (∀ q : Rat, 50000000000 ≤ q → epochToMs (.num q) = some ((⌊q⌋ : Int) : Rat)) ∧
    (∀ q : Rat, q < 50000000000 → epochToMs (.num q) = some ((⌊q * 1000⌋ : Int) : Rat)) ∧
    (∀ q : Rat, epochToMs (.numStr q) = epochToMs (.num q)) ∧
    epochToMs .nonFiniteNum = none ∧
    epochToMs (.dateStr none) = none ∧
    epochToMs .blankStr = none ∧
    epochToMs .otherInput = none ∧
    epochToMs (.dateVal none) = none ∧
    epochToMs (.num 50000000000) = some 50000000000 ∧
    epochToMs (.num 49999999999) = some 49999999999000 ∧
    epochToMs (.num (3/2)) = some 1500 := by
  refine ⟨fun q hq => ?_, fun q hq => ?_, fun q => rfl, rfl, rfl, rfl, rfl, rfl, ?_, ?_, ?_⟩
  · simp [epochToMs, epochNumToMs, if_pos hq]
  · simp [epochToMs, epochNumToMs, if_neg (not_le.mpr hq)]
  · norm_num [epochToMs, epochNumToMs]
  · norm_num [epochToMs, epochNumToMs]
  · norm_num [epochToMs, epochNumToMs]

/-- A raw event-log row.  The numeric fields hold the result of
`toFiniteNumber` applied to the raw JSON field (which also coerces numeric
strings): `none` means absent or not a finite number. -/
structure Row where
  side : Option String := none
  market_slug : Option String := none
  bucket_end_ms : Option Rat := none
  last_event_time_ms : Option Rat := none
  event_time_ms : Option Rat := none
  receive_time_ms : Option Rat := none
  last_trade_price : Option Rat := none
  mid : Option Rat := none
  best_bid : Option Rat := none
  best_ask : Option Rat := none
  price : Option Rat := none
  sample_count : Option Rat := none
deriving Repr, DecidableEq, Inhabited

/-- The epsilon of `toPrice` (patterns5mCore.js line 71). -/
def EPS : Rat := 1 / 1000000000

/-- Translation of `toPrice` (patterns5mCore.js lines 66-85): prefer the
last-trade price only when it is consistent with the visible best-bid and
best-ask band widened by `EPS`; with no visible band return it as-is;
otherwise fall back to the mid field. -/
def toPrice (row : Row) : Option Rat :=
  match row.last_trade_price with
  | some lastTradePrice =>
    match row.best_bid, row.best_ask with
    | some bestBid, some bestAsk =>
      let low := min bestBid bestAsk - EPS
      let high := max bestBid bestAsk + EPS
      if low ≤ lastTradePrice ∧ lastTradePrice ≤ high then some lastTradePrice
      else row.mid
    | _, _ => some lastTradePrice
  | none => row.mid

/-- Translation of the legacy `toPrice` copy in the old stats script
(patterns5mCore.js lines 482-484): last-trade price when finite, else mid,
with no consistency check against the best-bid/best-ask band. -/
def toPriceLegacy (row : Row) : Option Rat :=
  match row.last_trade_price with
  | some v => some v
  | none => row.mid

/-- A row whose last-trade price 5 lies far outside the visible band
[0.4, 0.6] and whose mid field is 0.5. -/
def outOfBandRow : Row :=
  { last_trade_price := some 5
    mid := some (1/2)
    best_bid := some (2/5)
    best_ask := some (3/5) }

/-- C5 counterexample: the legacy price extractor (cited by the claim)
returns the out-of-band last-trade price 5 instead of the midpoint, so the
claim is false of that extractor; the primary extractor does return the
mid on the same row. -/
theorem toPriceLegacy_ignores_band :
    toPriceLegacy outOfBandRow = some 5 ∧
    ¬ (5 : Rat) ≤ max (2/5 : Rat) (3/5) + EPS ∧
    toPriceLegacy outOfBandRow ≠ outOfBandRow.mid ∧
    toPrice outOfBandRow = some (1/2) := by
  refine ⟨rfl, by norm_num [EPS, max_def], by norm_num [toPriceLegacy, outOfBandRow], ?_⟩
  norm_num [toPrice, outOfBandRow, EPS, min_def, max_def]

/-- C5 (amended): the primary `toPrice` returns the last-trade price when
present and inside the widened best-bid/best-ask band, returns it as-is
when no band is visible, falls back to the mid field when the last-trade
price is out of band or absent, and yields no price when neither is
available; the legacy copy returns the last-trade price whenever present
(no band check), else the mid field. -/
theorem toPrice_spec :
    (∀ (r : Row) (p bid ask : Rat), r.last_trade_price = some p → r.best_bid = some bid →
      r.best_ask = some ask → min bid ask - EPS ≤ p → p ≤ max bid ask + EPS →
      toPrice r = some p) ∧
    (∀ (r : Row) (p bid ask : Rat), r.last_trade_price = some p → r.best_bid = some bid →
      r.best_ask = some ask → ¬ (min bid ask - EPS ≤ p ∧ p ≤ max bid ask + EPS) →
      toPrice r = r.mid) ∧
    (∀ (r : Row) (p : Rat), r.last_trade_price = some p →
      (r.best_bid = none ∨ r.best_ask = none) → toPrice r = some p) ∧
    (∀ r : Row, r.last_trade_price = none → toPrice r = r.mid) ∧
    (∀ r : Row, r.last_trade_price = none → r.mid = none → toPrice r = none) ∧
    (∀ (r : Row) (p : Rat), r.last_trade_price = some p → toPriceLegacy r = some p) ∧
    (∀ r : Row, r.last_trade_price = none → toPriceLegacy r = r.mid) := by
  refine ⟨?_, ?_, ?_, ?_, ?_, ?_, ?_⟩
  · intro r p bid ask hp hb ha h1 h2
    simp only [toPrice, hp, hb, ha]
    rw [if_pos (And.intro h1 h2)]
  · intro r p bid ask hp hb ha hband
    simp only [toPrice, hp, hb, ha]
    rw [if_neg hband]
  · intro r p hp hmiss
    rcases hmiss with hb | ha
    · cases hask : r.best_ask <;> simp [toPrice, hp, hb, hask]
    · cases hbid : r.best_bid <;> simp [toPrice, hp, ha, hbid]
  · intro r hp; simp [toPrice, hp]
  · intro r hp hm; simp [toPrice, hp, hm]
  · intro r p hp; simp [toPriceLegacy, hp]
  · intro r hp; simp [toPriceLegacy, hp]

/-- A row whose last-trade price 0.5 lies inside the band [0.4, 0.6]. -/
def inBandRow : Row :=
  { last_trade_price := some (1/2)
    mid := some (49/100)
    best_bid := some (2/5)
    best_ask := some (3/5) }

/-- Witness for the C5 theorem at a concrete in-band row. -/
theorem toPrice_spec_witness :
    inBandRow.last_trade_price = some (1/2) ∧
    min (2/5 : Rat) (3/5) - EPS ≤ (1/2 : Rat) ∧
    (1/2 : Rat) ≤ max (2/5 : Rat) (3/5) + EPS ∧
    toPrice inBandRow = some (1/2) :=
  ⟨rfl, by norm_num [EPS, min_def], by norm_num [EPS, max_def],
    toPrice_spec.1 inBandRow (1/2) (2/5) (3/5) rfl rfl rfl
      (by norm_num [EPS, min_def]) (by norm_num [EPS, max_def])⟩

/-- Translation of `toFiniteNumber` (patterns5mCore.js lines 34-37) on
JSON values.  The JS version also coerces numeric strings through
`Number()`; threshold values in the claims are numbers, modelled as
`JValue.num`. -/
def toFiniteNumber : JValue → Option Rat
  | .num q => some q
  | _ => none

/-- JS truthiness of a modelled value (NaN, also falsy, has no model). -/
def jTruthy : JValue → Bool
  | .null => false
  | .bool b => b
  | .num q => decide (q ≠ 0)
  | .str s => decide (s ≠ "")
  | .arr _ => true
  | .obj _ => true

/-- Translation of `LAST_TWO_MIN_MS` (patterns5mCore.js line 2). -/
def LAST_TWO_MIN_MS : Rat := 2 * 60 * 1000

/-- Reading one numeric threshold:
`Number(toFiniteNumber(params?.[k]) ?? dflt)`. -/
def paramNum (params : JValue) (k : String) (dflt : Rat) : Rat :=
  match jGet params k with
  | some v => (toFiniteNumber v).getD dflt
  | none => dflt

/-- The `enabled` truthiness filter of `evaluateSidePatterns` line 201:
`patternConfig?.patterns?.[id]?.enabled`. -/
def enabledFilter (cfg : JValue) (id : PatternId) : Bool :=
  match ((jGet cfg "patterns").bind (fun p => jGet p id.key)).bind (fun e => jGet e "enabled") with
  | some v => jTruthy v
  | none => false

/-- The params value handed to an evaluator:
`patternConfig.patterns[id]?.params || {}` (line 239). -/
def paramGet (cfg : JValue) (id : PatternId) : JValue :=
  match ((jGet cfg "patterns").bind (fun p => jGet p id.key)).bind (fun e => jGet e "params") with
  | some v => if jTruthy v then v else .obj []
  | none => .obj []

/-- The per-side shared context of `evaluateSidePatterns` (lines 221-229). -/
structure SideCtx where
  inWindow : List Point
  last2m : List Point
  finalPrice : Rat
  fullMax : Rat
  last2mHigh : Option Rat
  last2mLow : Option Rat
  maxDrawdownAbs : Option Rat
deriving Repr, DecidableEq, Inhabited

/-- The `hits` / `state.hits` record of the evaluation loop. -/
structure HitMap where
  extremeReversal : Bool := false
  lateVolatility : Bool := false
  peacefulFinish : Bool := false
deriving Repr, DecidableEq, Inhabited

/-- Read one hit flag. -/
def HitMap.get (h : HitMap) : PatternId → Bool
  | .extremeReversal => h.extremeReversal
  | .lateVolatility => h.lateVolatility
  | .peacefulFinish => h.peacefulFinish

/-- Update one hit flag. -/
def HitMap.set (h : HitMap) : PatternId → Bool → HitMap
  | .extremeReversal, b => { h with extremeReversal := b }
  | .lateVolatility, b => { h with lateVolatility := b }
  | .peacefulFinish, b => { h with peacefulFinish := b }

/-- The `metricsByPattern` record: `none` for a pattern not evaluated. -/
structure MetricsMap where
  extremeReversal : Option (List (String × Option Rat)) := none
  lateVolatility : Option (List (String × Option Rat)) := none
  peacefulFinish : Option (List (String × Option Rat)) := none
deriving Repr, DecidableEq, Inhabited

/-- Update one metrics slot. -/
def MetricsMap.set (m : MetricsMap) :
    PatternId → Option (List (String × Option Rat)) → MetricsMap
  | .extremeReversal, v => { m with extremeReversal := v }
  | .lateVolatility, v => { m with lateVolatility := v }
  | .peacefulFinish, v => { m with peacefulFinish := v }

/-- Result of one evaluator: hit flag and metrics object. -/
structure EvalResult where
  hit : Bool
  metrics : List (String × Option Rat)
deriving Repr, DecidableEq, Inhabited

/-- The scan of `PATTERN_EVALUATORS.lateVolatility` (lines 158-166): walk
the last-2-minute series; once a price at or above the high threshold has
been seen, a later (or the same) price strictly below the low threshold is
a hit. -/
def lateVolLoop (highThreshold lowThreshold : Rat) : Bool → List Point → Bool
  | _, [] => false
  | highSeen, p :: rest =>
    let hs := highSeen || decide (highThreshold ≤ p.price)
    if hs && decide (p.price < lowThreshold) then true
    else lateVolLoop highThreshold lowThreshold hs rest

/-- Loop body of `computeMaxDrawdownAbs` (patterns5mCore.js lines
100-108). -/
def ddGo : Rat → Rat → List Point → Rat
  | _, maxDd, [] => maxDd
  | runningHigh, maxDd, p :: rest =>
    let rh := max runningHigh p.price
    ddGo rh (max maxDd (rh - p.price)) rest

/-- Translation of `computeMaxDrawdownAbs`.  The source seeds the running
high with negative infinity; after the first point it equals that point
price and the drawdown so far is 0, inlined here for the nonempty case
(the empty case returns the initial 0). -/
def computeMaxDrawdownAbs : List Point → Rat
  | [] => 0
  | p :: rest => ddGo p.price 0 rest

/-- Maximum of the prices of a nonempty list
(`Math.max(...pts.map(x => x.price))`); the source seeds the fold with
negative infinity and only uses it on nonempty lists. -/
def maxPriceOf : List Point → Option Rat
  | [] => none
  | p :: rest => some (rest.foldl (fun m q => max m q.price) p.price)

/-- Minimum of the prices of a nonempty list. -/
def minPriceOf : List Point → Option Rat
  | [] => none
  | p :: rest => some (rest.foldl (fun m q => min m q.price) p.price)

/-- Translation of `PATTERN_EVALUATORS` (patterns5mCore.js lines 142-197),
dispatching on the pattern id; `state` is the mutable `state.hits` record
visible to later evaluators of the same pass. -/
def patternEvaluator (id : PatternId) (ctx : SideCtx) (params : JValue)
    (state : HitMap) : EvalResult :=
  match id with
  | .extremeReversal =>
    let maxPriceThreshold := paramNum params "maxPriceThreshold" (98/100)
    let finalPriceThreshold := paramNum params "finalPriceThreshold" (1/100)
    { hit := decide (maxPriceThreshold ≤ ctx.fullMax) &&
        decide (ctx.finalPrice ≤ finalPriceThreshold)
      metrics := [("max_price", some ctx.fullMax), ("final_price", some ctx.finalPrice)] }
  | .lateVolatility =>
    let highThreshold := paramNum params "highThreshold" (8/10)
    let lowThreshold := paramNum params "lowThreshold" (4/10)
    { hit := lateVolLoop highThreshold lowThreshold false ctx.last2m
      metrics := [("last2m_high", ctx.last2mHigh), ("last2m_low", ctx.last2mLow),
        ("final_price", some ctx.finalPrice)] }
  | .peacefulFinish =>
    let finalPriceThreshold := paramNum params "finalPriceThreshold" (99/100)
    let maxDrawdownAbsThreshold := paramNum params "maxDrawdownAbsThreshold" (1/10)
    let lateVolatilityHit := state.lateVolatility
    { hit := decide (0 < ctx.last2m.length) &&
        decide (finalPriceThreshold ≤ ctx.finalPrice) &&
        (match ctx.maxDrawdownAbs with
         | some dd => decide (dd ≤ maxDrawdownAbsThreshold)
         | none => false) &&
        !lateVolatilityHit
      metrics := [("final_price", some ctx.finalPrice), ("last2m_high", ctx.last2mHigh),
        ("last2m_low", ctx.last2mLow), ("max_drawdown_abs", ctx.maxDrawdownAbs)] }

/-- The evaluation loop of `evaluateSidePatterns` (lines 236-244): fold
over the enabled pattern ids in priority order, feeding each evaluator the
hits decided so far. -/
def evalLoop (ctx : SideCtx) (cfg : JValue) :
    List PatternId → HitMap → MetricsMap → HitMap × MetricsMap
  | [], hits, metrics => (hits, metrics)
  | id :: rest, hits, metrics =>
    let params := paramGet cfg id
    let result := patternEvaluator id ctx params hits
    evalLoop ctx cfg rest (hits.set id result.hit) (metrics.set id (some result.metrics))

/-- Result record of `evaluateSidePatterns`. -/
structure SideEval where
  hasData : Bool
  hits : HitMap
  metricsByPattern : MetricsMap
  sharedMetrics : Option (List (String × Option Rat))
deriving Repr, DecidableEq, Inhabited

/-- The effective config of a call:
`normalizePatternConfig(patternConfigInput || DEFAULT_PATTERN_CONFIG)`. -/
def effConfig (patternConfigInput : JValue) : JValue :=
  normalizePatternConfig
    (if jTruthy patternConfigInput then patternConfigInput else DEFAULT_PATTERN_CONFIG)

/-- The in-window filter of `evaluateSidePatterns` line 202. -/
def inWindowOf (points : List Point) (windowStartMs windowEndMs : Rat) : List Point :=
  points.filter (fun p => decide (windowStartMs ≤ p.ts) && decide (p.ts ≤ windowEndMs))

/-- The last-2-minute sub-series of lines 216-217 (computed on the sorted
in-window series). -/
def last2mOf (points : List Point) (windowStartMs windowEndMs : Rat) : List Point :=
  (sortPoints (inWindowOf points windowStartMs windowEndMs)).filter
    (fun p => decide (windowEndMs - LAST_TWO_MIN_MS ≤ p.ts))

/-- The final (last in-window) price of line 212. -/
def finalPriceOf (points : List Point) (windowStartMs windowEndMs : Rat) : Rat :=
  ((sortPoints (inWindowOf points windowStartMs windowEndMs)).getLastD default).price

/-- The shared side context (lines 211-229). -/
def ctxOf (points : List Point) (windowStartMs windowEndMs : Rat) : SideCtx :=
  let sorted := sortPoints (inWindowOf points windowStartMs windowEndMs)
  let last2m := last2mOf points windowStartMs windowEndMs
  { inWindow := sorted
    last2m := last2m
    finalPrice := finalPriceOf points windowStartMs windowEndMs
    fullMax := match sorted with
      | [] => 0
      | p :: rest => rest.foldl (fun m q => max m q.price) p.price
    last2mHigh := maxPriceOf last2m
    last2mLow := minPriceOf last2m
    maxDrawdownAbs := if 0 < last2m.length then some (computeMaxDrawdownAbs last2m) else none }

/-- Translation of `evaluateSidePatterns` (patterns5mCore.js lines
199-258). -/
def evaluateSidePatterns (points : List Point) (windowStartMs windowEndMs : Rat)
    (patternConfigInput : JValue) : SideEval :=
  let patternConfig := effConfig patternConfigInput
  let enabledPatternIds := PATTERN_PRIORITY.filter (fun id => enabledFilter patternConfig id)
  let inWindow := inWindowOf points windowStartMs windowEndMs
  if inWindow.length = 0 then
    { hasData := false, hits := {}, metricsByPattern := {}, sharedMetrics := none }
  else
    let ctx := ctxOf points windowStartMs windowEndMs
    let (hits, metricsByPattern) := evalLoop ctx patternConfig enabledPatternIds {} {}
    { hasData := true
      hits := hits
      metricsByPattern := metricsByPattern
      sharedMetrics := some [("max_price", some ctx.fullMax),
        ("final_price", some ctx.finalPrice), ("last2m_high", ctx.last2mHigh),
        ("last2m_low", ctx.last2mLow), ("max_drawdown_abs", ctx.maxDrawdownAbs)] }

lemma last2mOf_sublist_sorted (points : List Point) (ws we : Rat) :
    inWindowOf points ws we = [] → last2mOf points ws we = [] := by
  intro h
  unfold last2mOf
  rw [h]
  rfl

/-- The peacefulFinish threshold parameters of the effective config. -/
def pfFinalThr (cfgInput : JValue) : Rat :=
  paramNum (paramGet (effConfig cfgInput) .peacefulFinish) "finalPriceThreshold" (99/100)

/-- The maxDrawdownAbs threshold of the effective config. -/
def pfDdThr (cfgInput : JValue) : Rat :=
  paramNum (paramGet (effConfig cfgInput) .peacefulFinish) "maxDrawdownAbsThreshold" (1/10)

/-- C2: with all three patterns enabled, `peacefulFinish` hits for a side
iff the last-2-minute sub-series is nonempty, the final price reaches its
threshold, the max drawdown stays within its threshold, and
`lateVolatility` did not hit in the same pass; in particular a side on
which `lateVolatility` hits never reports `peacefulFinish`. -/
theorem evaluateSidePatterns_peacefulFinish_iff
    (points : List Point) (ws we : Rat) (cfgInput : JValue)
    (hER : enabledFilter (effConfig cfgInput) .extremeReversal = true)
    (hLV : enabledFilter (effConfig cfgInput) .lateVolatility = true)
    (hPF : enabledFilter (effConfig cfgInput) .peacefulFinish = true) :
    ((evaluateSidePatterns points ws we cfgInput).hits.peacefulFinish = true ↔
      (last2mOf points ws we ≠ [] ∧
       pfFinalThr cfgInput ≤ finalPriceOf points ws we ∧
       computeMaxDrawdownAbs (last2mOf points ws we) ≤ pfDdThr cfgInput ∧
       (evaluateSidePatterns points ws we cfgInput).hits.lateVolatility = false)) ∧
    ((evaluateSidePatterns points ws we cfgInput).hits.lateVolatility = true →
      (evaluateSidePatterns points ws we cfgInput).hits.peacefulFinish = false) := by
  have hfilter : PATTERN_PRIORITY.filter (fun id => enabledFilter (effConfig cfgInput) id)
      = PATTERN_PRIORITY := by
    simp [PATTERN_PRIORITY, List.filter_cons, hER, hLV, hPF]
  by_cases hempty : inWindowOf points ws we = []
  · have hlen : (inWindowOf points ws we).length = 0 := by rw [hempty]; rfl
    have hres : evaluateSidePatterns points ws we cfgInput =
        { hasData := false, hits := {}, metricsByPattern := {}, sharedMetrics := none } := by
      unfold evaluateSidePatterns
      rw [if_pos hlen]
    have h2m := last2mOf_sublist_sorted points ws we hempty
    rw [hres]
    constructor
    · simp [HitMap.get, h2m]
    · intro h
      simp at h
  · have hlen : ¬ (inWindowOf points ws we).length = 0 := by
      simpa [List.length_eq_zero] using hempty
    have hres : evaluateSidePatterns points ws we cfgInput =
        (let ctx := ctxOf points ws we
         let (hits, metricsByPattern) :=
           evalLoop ctx (effConfig cfgInput) PATTERN_PRIORITY {} {}
         { hasData := true
           hits := hits
           metricsByPattern := metricsByPattern
           sharedMetrics := some [("max_price", some ctx.fullMax),
             ("final_price", some ctx.finalPrice), ("last2m_high", ctx.last2mHigh),
             ("last2m_low", ctx.last2mLow), ("max_drawdown_abs", ctx.maxDrawdownAbs)] }) := by
      unfold evaluateSidePatterns
      simp only [hfilter, if_neg hlen]
    set cfg := effConfig cfgInput with hcfg
    set ctx := ctxOf points ws we with hctx
    have hloop : evalLoop ctx cfg PATTERN_PRIORITY {} {} =
        (let e1 := (patternEvaluator .extremeReversal ctx (paramGet cfg .extremeReversal) {}).hit
         let l2 := (patternEvaluator .lateVolatility ctx (paramGet cfg .lateVolatility)
           { extremeReversal := e1 }).hit
         let p3 := (patternEvaluator .peacefulFinish ctx (paramGet cfg .peacefulFinish)
           { extremeReversal := e1, lateVolatility := l2 }).hit
         ({ extremeReversal := e1, lateVolatility := l2, peacefulFinish := p3 },
          { extremeReversal :=
              some (patternEvaluator .extremeReversal ctx (paramGet cfg .extremeReversal) {}).metrics
            lateVolatility :=
              some (patternEvaluator .lateVolatility ctx (paramGet cfg .lateVolatility)
                { extremeReversal := e1 }).metrics
            peacefulFinish :=
              some (patternEvaluator .peacefulFinish ctx (paramGet cfg .peacefulFinish)
                { extremeReversal := e1, lateVolatility := l2 }).metrics })) := by
      simp [PATTERN_PRIORITY, evalLoop, HitMap.set, MetricsMap.set]
    have hl2 : ctx.last2m = last2mOf points ws we := by rw [hctx]; rfl
    have hfp : ctx.finalPrice = finalPriceOf points ws we := by rw [hctx]; rfl
    have hdd : ctx.maxDrawdownAbs =
        if 0 < (last2mOf points ws we).length
        then some (computeMaxDrawdownAbs (last2mOf points ws we)) else none := by
      rw [hctx]; rfl
    rw [hres]
    simp only [hloop]
    by_cases h2m : last2mOf points ws we = []
    · have hl0 : ctx.last2m.length = 0 := by rw [hl2, h2m]; rfl
      constructor
      · simp [patternEvaluator, hl0, h2m]
      · simp [patternEvaluator, hl0]
    · have hl0 : 0 < ctx.last2m.length := by
        rw [hl2]
        exact List.length_pos.mpr h2m
      have hddv : ctx.maxDrawdownAbs =
          some (computeMaxDrawdownAbs (last2mOf points ws we)) := by
        rw [hdd, if_pos (by rw [← hl2]; exact hl0)]
      constructor
      · simp only [patternEvaluator, hddv, hl0, decide_eq_true_eq, Bool.and_eq_true,
          Bool.not_eq_eq_eq_not, Bool.not_true, decide_eq_true_eq, hfp, hl2]
        constructor
        · rintro ⟨⟨⟨-, hthr⟩, hddle⟩, hlv⟩
          exact ⟨h2m, by simpa [pfFinalThr, hcfg] using hthr,
            by simpa [pfDdThr, hcfg] using hddle, by simpa using hlv⟩
        · rintro ⟨-, hthr, hddle, hlv⟩
          refine ⟨⟨⟨by simpa using hl0, by simpa [pfFinalThr, hcfg] using hthr⟩,
            by simpa [pfDdThr, hcfg] using hddle⟩, by simpa using hlv⟩
      · intro hlvhit
        simp only [patternEvaluator] at hlvhit ⊢
        rw [hlvhit]
        simp

/-- A quiet side series: price 0.995 throughout the window. -/
def quietPts : List Point := [⟨10000, 995/1000⟩, ⟨290000, 995/1000⟩]

/-- Witness for C2: the default config (null input) has all three patterns
enabled, and the theorem applies to a concrete quiet series. -/
theorem evaluateSidePatterns_peacefulFinish_iff_witness :
    (enabledFilter (effConfig JValue.null) .extremeReversal = true ∧
     enabledFilter (effConfig JValue.null) .lateVolatility = true ∧
     enabledFilter (effConfig JValue.null) .peacefulFinish = true) ∧
    (((evaluateSidePatterns quietPts 0 300000 JValue.null).hits.peacefulFinish = true ↔
      (last2mOf quietPts 0 300000 ≠ [] ∧
       pfFinalThr JValue.null ≤ finalPriceOf quietPts 0 300000 ∧
       computeMaxDrawdownAbs (last2mOf quietPts 0 300000) ≤ pfDdThr JValue.null ∧
       (evaluateSidePatterns quietPts 0 300000 JValue.null).hits.lateVolatility = false)) ∧
     ((evaluateSidePatterns quietPts 0 300000 JValue.null).hits.lateVolatility = true →
      (evaluateSidePatterns quietPts 0 300000 JValue.null).hits.peacefulFinish = false)) :=
  ⟨⟨rfl, rfl, rfl⟩,
    evaluateSidePatterns_peacefulFinish_iff quietPts 0 300000 JValue.null rfl rfl rfl⟩

/-- Decimal digit test used by the market-slug pattern. -/
def isDigitChar (c : Char) : Bool := c.isDigit

/-- Value of a digit-character list, most significant first. -/
def digitsToNat (cs : List Char) : Nat :=
  cs.foldl (fun n c => 10 * n + (c.toNat - 48)) 0

/-- The end-anchored regex `btc-updown-(\d+)m-(\d{10})$` shared by
`parseMarketMeta`, `parseMarketStartMsFromSlug` and
`parseMarketWindowMsFromSlug`: returns (minutes, epoch-seconds) of the
match.  The decomposition is unique: the 10-digit group is the suffix, the
minutes group is the maximal digit run before the literal `m-`, preceded by
the literal `btc-updown-`. -/
def slugRegexMatch (s : String) : Option (Nat × Nat) :=
  let rev := s.data.reverse
  let t10 := rev.take 10
  let rest1 := rev.drop 10
  if t10.length = 10 ∧ t10.all isDigitChar then
    match rest1 with
    | '-' :: 'm' :: rest2 =>
      let ds := rest2.takeWhile isDigitChar
      let rest3 := rest2.drop ds.length
      if ds.length ≠ 0 ∧ rest3.take 11 = ("btc-updown-".data.reverse) then
        some (digitsToNat ds.reverse, digitsToNat t10.reverse)
      else none
    | _ => none
  else none

/-- Translation of `parseMarketMeta` (patterns5mCore.js lines 39-53). -/
def parseMarketMeta (s : String) : Option MarketMeta :=
  match slugRegexMatch s with
  | none => none
  | some (minutes, startSec) =>
    if minutes = 0 then none
    else some
      { minutes := minutes
        windowMs := (minutes : Rat) * 60 * 1000
        startMs := (startSec : Rat) * 1000
        endMs := (startSec : Rat) * 1000 + (minutes : Rat) * 60 * 1000 }

/-- Translation of `parseMarketStartMsFromSlug` (replayServer.js lines
112-119); unlike `parseMarketMeta` it does not reject zero minutes. -/
def parseMarketStartMsFromSlug (s : String) : Option Rat :=
  (slugRegexMatch s).map (fun p => (p.2 : Rat) * 1000)

/-- Translation of `parseMarketWindowMsFromSlug` (replayServer.js lines
121-128). -/
def parseMarketWindowMsFromSlug (s : String) : Option Rat :=
  (slugRegexMatch s).bind (fun p => if p.1 = 0 then none else some ((p.1 : Rat) * 60 * 1000))

/-- Translation of `toUpdownPointTimeMs` (patterns5mCore.js lines 55-60):
the timestamp-preference chain of an odds row. -/
def toUpdownPointTimeMs (r : Row) : Option Rat :=
  match r.bucket_end_ms with
  | some v => some v
  | none =>
    match r.last_event_time_ms with
    | some v => some v
    | none =>
      match r.event_time_ms with
      | some v => some v
      | none => r.receive_time_ms

/-- Translation of `toBtcTimeMs` (patterns5mCore.js lines 62-64). -/
def toBtcTimeMs (r : Row) : Option Rat :=
  match r.event_time_ms with
  | some v => some v
  | none => r.receive_time_ms

/-- One line of a JSONL log file: blank (or whitespace), unparseable, or a
parsed row. -/
inductive JLine where
  | blank
  | bad
  | good (r : Row)
deriving Repr, DecidableEq, Inhabited

/-- The warning tracker of `createWarningTracker` (stats5mPatterns.js lines
94-110): per-code counts (a JS Map in insertion order) and at most the
first 25 samples. -/
structure Warnings where
  counts : List (String × Nat) := []
  samples : List (String × String) := []
deriving Repr, DecidableEq, Inhabited

/-- `counts.set(code, (counts.get(code) || 0) + 1)`. -/
def bumpCount (code : String) : List (String × Nat) → List (String × Nat)
  | [] => [(code, 1)]
  | (c, n) :: rest => if c = code then (c, n + 1) :: rest else (c, n) :: bumpCount code rest

/-- The `add` method of the warning tracker. -/
def addWarning (w : Warnings) (code message : String) : Warnings :=
  { counts := bumpCount code w.counts
    samples := if w.samples.length < 25 then w.samples ++ [(code, message)] else w.samples }

/-- Count recorded for a code (0 when the code never occurred). -/
def countOf : List (String × Nat) → String → Nat
  | [], _ => 0
  | (c, n) :: rest, code => if c = code then n else countOf rest code

/-- Line loop of `eachJsonl` (stats5mPatterns.js lines 145-156): blank
lines are skipped, lines that fail `JSON.parse` are tallied as
`bad_json_line` and skipped, parsed rows are handed to the callback. -/
def eachJsonlLines {σ : Type} (filePath : String) :
    Nat → List JLine → Warnings → (Row → σ → σ) → σ → Warnings × σ
  | _, [], w, _, s => (w, s)
  | lineNo, line :: rest, w, f, s =>
    match line with
    | .blank => eachJsonlLines filePath (lineNo + 1) rest w f s
    | .bad => eachJsonlLines filePath (lineNo + 1) rest
        (addWarning w "bad_json_line" (filePath ++ ":" ++ natRender lineNo)) f s
    | .good r => eachJsonlLines filePath (lineNo + 1) rest w f (f r s)

/-- Translation of `eachJsonl` (stats5mPatterns.js lines 136-157): a
missing file adds one `missing_file` warning and contributes no rows. -/
def eachJsonl {σ : Type} (filePath : String) (file : Option (List JLine))
    (warnings : Warnings) (onRow : Row → σ → σ) (init : σ) : Warnings × σ :=
  match file with
  | none => (addWarning warnings "missing_file" ("missing: " ++ filePath), init)
  | some lines => eachJsonlLines filePath 1 lines warnings onRow init

/-- The rows of a line list that parse. -/
def goodRows : List JLine → List Row
  | [] => []
  | .good r :: rest => r :: goodRows rest
  | .blank :: rest => goodRows rest
  | .bad :: rest => goodRows rest

/-- The number of unparseable lines of a line list. -/
def badLineCount : List JLine → Nat
  | [] => 0
  | .bad :: rest => badLineCount rest + 1
  | .blank :: rest => badLineCount rest
  | .good _ :: rest => badLineCount rest

/-- Replay of a sequence of tracker `add` calls. -/
def applyWarnings (w : Warnings) : List (String × String) → Warnings
  | [] => w
  | (c, m) :: rest => applyWarnings (addWarning w c m) rest

lemma countOf_bumpCount (l : List (String × Nat)) (code code2 : String) :
    countOf (bumpCount code l) code2 =
      countOf l code2 + (if code = code2 then 1 else 0) := by
  induction l with
  | nil =>
    by_cases h : code = code2
    · subst h; simp [bumpCount, countOf]
    · simp [bumpCount, countOf, h, fun hc : code2 = code => h hc.symm]
  | cons p rest ih =>
    obtain ⟨c, n⟩ := p
    by_cases hc : c = code
    · subst hc
      by_cases h2 : c = code2
      · subst h2; simp [bumpCount, countOf]
      · simp [bumpCount, countOf, h2]
    · by_cases h2 : c = code2
      · subst h2
        have : code ≠ c := fun h => hc h.symm
        simp [bumpCount, countOf, hc, this]
      · simp [bumpCount, countOf, hc, h2, ih]

lemma eachJsonlLines_snd {σ : Type} (lines : List JLine) :
    ∀ (filePath : String) (n : Nat) (w : Warnings) (f : Row → σ → σ) (s : σ),
      (eachJsonlLines filePath n lines w f s).2 =
        (goodRows lines).foldl (fun acc r => f r acc) s := by
  induction lines with
  | nil => intro filePath n w f s; rfl
  | cons line rest ih =>
    intro filePath n w f s
    cases line with
    | blank => exact ih filePath (n + 1) w f s
    | bad => exact ih filePath (n + 1) _ f s
    | good r => exact ih filePath (n + 1) w f (f r s)

lemma eachJsonlLines_count {σ : Type} (lines : List JLine) :
    ∀ (filePath : String) (n : Nat) (w : Warnings) (f : Row → σ → σ) (s : σ) (code : String),
      countOf (eachJsonlLines filePath n lines w f s).1.counts code =
        countOf w.counts code +
          (if code = "bad_json_line" then badLineCount lines else 0) := by
  induction lines with
  | nil => intro filePath n w f s code; simp [eachJsonlLines, badLineCount]
  | cons line rest ih =>
    intro filePath n w f s code
    cases line with
    | blank =>
      rw [show eachJsonlLines filePath n (JLine.blank :: rest) w f s =
        eachJsonlLines filePath (n + 1) rest w f s from rfl, ih]
      simp [badLineCount]
    | bad =>
      rw [show eachJsonlLines filePath n (JLine.bad :: rest) w f s =
        eachJsonlLines filePath (n + 1) rest
          (addWarning w "bad_json_line" (filePath ++ ":" ++ natRender n)) f s from rfl, ih]
      simp only [addWarning, countOf_bumpCount, badLineCount]
      by_cases h : code = "bad_json_line"
      · subst h; simp; omega
      · have h2 : ¬ "bad_json_line" = code := fun hc => h hc.symm
        simp [h, h2]
    | good r =>
      rw [show eachJsonlLines filePath n (JLine.good r :: rest) w f s =
        eachJsonlLines filePath (n + 1) rest w f (f r s) from rfl, ih]
      simp [badLineCount]

lemma goodRows_append (a b : List JLine) :
    goodRows (a ++ b) = goodRows a ++ goodRows b := by
  induction a with
  | nil => rfl
  | cons line rest ih => cases line <;> simp [goodRows, ih]

lemma badLineCount_append (a b : List JLine) :
    badLineCount (a ++ b) = badLineCount a + badLineCount b := by
  induction a with
  | nil => simp [badLineCount]
  | cons line rest ih => cases line <;> simp [badLineCount, ih] <;> omega

lemma applyWarnings_samples (adds : List (String × String)) :
    ∀ w : Warnings, w.samples.length ≤ 25 →
      (applyWarnings w adds).samples = w.samples ++ adds.take (25 - w.samples.length) := by
  induction adds with
  | nil => intro w hw; simp [applyWarnings]
  | cons p rest ih =>
    obtain ⟨c, m⟩ := p
    intro w hw
    by_cases h : w.samples.length < 25
    · have hlen : (addWarning w c m).samples = w.samples ++ [(c, m)] := by
        simp [addWarning, h]
      rw [show applyWarnings w ((c, m) :: rest) = applyWarnings (addWarning w c m) rest from rfl,
        ih (addWarning w c m) (by rw [hlen]; simp; omega), hlen]
      have harith : 25 - w.samples.length = (25 - (w.samples.length + 1)) + 1 := by omega
      rw [List.append_assoc]
      congr 1
      rw [harith, List.take_succ_cons]
      simp
    · have h25 : w.samples.length = 25 := by omega
      have hlen : (addWarning w c m).samples = w.samples := by
        simp [addWarning, h]
      rw [show applyWarnings w ((c, m) :: rest) = applyWarnings (addWarning w c m) rest from rfl,
        ih (addWarning w c m) (by rw [hlen]; omega), hlen, h25]
      simp

lemma applyWarnings_counts (adds : List (String × String)) :
    ∀ (w : Warnings) (code : String),
      countOf (applyWarnings w adds).counts code =
        countOf w.counts code + (adds.filter (fun p => p.1 = code)).length := by
  induction adds with
  | nil => intro w code; simp [applyWarnings]
  | cons p rest ih =>
    obtain ⟨c, m⟩ := p
    intro w code
    rw [show applyWarnings w ((c, m) :: rest) = applyWarnings (addWarning w c m) rest from rfl,
      ih]
    simp only [addWarning, countOf_bumpCount]
    by_cases h : c = code
    · subst h; simp [List.filter_cons]; omega
    · simp [List.filter_cons, h]

/-- C8: a line that fails to parse adds exactly one `bad_json_line` warning
and is skipped while every other line is processed exactly as without it; a
missing file adds one `missing_file` warning and contributes no rows; the
scan is total (never aborts), and the tracker keeps an unbounded per-code
count while retaining only the first 25 samples. -/
theorem eachJsonl_error_handling :
    (∀ (σ : Type) (filePath : String) (l1 l2 : List JLine) (w : Warnings)
        (f : Row → σ → σ) (s : σ),
      (eachJsonl filePath (some (l1 ++ JLine.bad :: l2)) w f s).2 =
        (eachJsonl filePath (some (l1 ++ l2)) w f s).2 ∧
      countOf (eachJsonl filePath (some (l1 ++ JLine.bad :: l2)) w f s).1.counts
          "bad_json_line" =
        countOf (eachJsonl filePath (some (l1 ++ l2)) w f s).1.counts "bad_json_line" + 1) ∧
    (∀ (σ : Type) (filePath : String) (w : Warnings) (f : Row → σ → σ) (s : σ),
      (eachJsonl filePath none w f s).2 = s ∧
      countOf (eachJsonl filePath none w f s).1.counts "missing_file" =
        countOf w.counts "missing_file" + 1 ∧
      (eachJsonl filePath none w f s).1.samples.length ≤ max w.samples.length 25) ∧
    (∀ adds : List (String × String),
      (applyWarnings {} adds).samples = adds.take 25 ∧
      (applyWarnings {} adds).samples.length ≤ 25 ∧
      ∀ code, countOf (applyWarnings {} adds).counts code =
        (adds.filter (fun p => p.1 = code)).length) := by
  refine ⟨fun σ filePath l1 l2 w f s => ⟨?_, ?_⟩, fun σ filePath w f s => ⟨rfl, ?_, ?_⟩,
    fun adds => ⟨?_, ?_, fun code => ?_⟩⟩
  · rw [show ∀ file, (eachJsonl filePath (some file) w f s) =
        eachJsonlLines filePath 1 file w f s from fun _ => rfl,
      show ∀ file, (eachJsonl filePath (some file) w f s) =
        eachJsonlLines filePath 1 file w f s from fun _ => rfl,
      eachJsonlLines_snd, eachJsonlLines_snd, goodRows_append, goodRows_append]
    rfl
  · rw [show ∀ file, (eachJsonl filePath (some file) w f s) =
        eachJsonlLines filePath 1 file w f s from fun _ => rfl,
      show ∀ file, (eachJsonl filePath (some file) w f s) =
        eachJsonlLines filePath 1 file w f s from fun _ => rfl,
      eachJsonlLines_count, eachJsonlLines_count, badLineCount_append, badLineCount_append]
    simp [badLineCount]
    omega
  · simp [eachJsonl, addWarning, countOf_bumpCount]
  · simp only [eachJsonl, addWarning]
    by_cases h : w.samples.length < 25 <;> simp [h] <;> omega
  · have := applyWarnings_samples adds {} (by simp)
    simpa using this
  · have := applyWarnings_samples adds {} (by simp)
    simp at this
    rw [this]
    simpa using List.length_take_le 25 adds
  · have := applyWarnings_counts adds {} code
    simpa [countOf] using this

/-- JS `s.startsWith(".")`. -/
def startsWithDot (s : String) : Bool :=
  match s.data with
  | [] => false
  | c :: _ => decide (c = '.')

/-- One window subdirectory of a date partition: its name and the contents
of its two log files (`none` = file missing). -/
structure WinDirEntry where
  name : String
  isDirectory : Bool := true
  updownFile : Option (List JLine) := none
  btcFile : Option (List JLine) := none
deriving Repr, DecidableEq, Inhabited

/-- The counters record of stats5mPatterns.js. -/
structure Counters where
  scannedWindows : Nat := 0
  valid5mWindows : Nat := 0
  completeWindows : Nat := 0
  countedWindows : Nat := 0
deriving Repr, DecidableEq, Inhabited

/-- Mutable state of the updown-row closure of `loadPartitionedWindows`
(stats5mPatterns.js lines 194-222): the `parsed`, `marketSlug` and
`window` variables. -/
structure PartScanState where
  parsed : Option MarketMeta
  marketSlug : String
  window : Option Window
deriving Repr, DecidableEq, Inhabited

/-- The updown-row callback of `loadPartitionedWindows` (lines 202-222). -/
def scanUpdownRowPart (date entryName : String) (r : Row) (st : PartScanState) :
    PartScanState :=
  let side := (r.side.getD "").toLower
  if side ≠ "up" ∧ side ≠ "down" then st
  else
    match toUpdownPointTimeMs r, toPrice r with
    | some ts, some price =>
      let slug := jsTrim (r.market_slug.getD "")
      let marketSlug := if slug ≠ "" then slug else st.marketSlug
      let parsed := if st.parsed.isNone ∧ slug ≠ "" then parseMarketMeta slug else st.parsed
      match parsed with
      | none => { parsed := parsed, marketSlug := marketSlug, window := st.window }
      | some m =>
        if m.minutes ≠ 5 then { parsed := parsed, marketSlug := marketSlug, window := st.window }
        else
          let w0 := st.window.getD (newWindow date entryName marketSlug m)
          let w1 := { w0 with marketSlug := marketSlug }
          let w2 := if side = "up" then { w1 with upPoints := w1.upPoints ++ [⟨ts, price⟩] }
                    else { w1 with downPoints := w1.downPoints ++ [⟨ts, price⟩] }
          { parsed := parsed, marketSlug := marketSlug, window := some w2 }
    | _, _ => st

/-- The btc-row callback of `loadPartitionedWindows` (lines 227-232). -/
def scanBtcRowPart (r : Row) (w : Window) : Window :=
  match toBtcTimeMs r, r.price with
  | some ts, some price => { w with btcPoints := w.btcPoints ++ [⟨ts, price⟩] }
  | _, _ => w

/-- Body of the directory loop of `loadPartitionedWindows`
(stats5mPatterns.js lines 185-237). -/
def loadPartStep (date : String) (acc : List Window × Warnings × Counters)
    (entry : WinDirEntry) : List Window × Warnings × Counters :=
  let (windows, warnings, counters) := acc
  if ¬ entry.isDirectory then acc
  else if startsWithDot entry.name then acc
  else if entry.name = "_unassigned" then acc
  else
    let counters := { counters with scannedWindows := counters.scannedWindows + 1 }
    let winDir := date ++ "/" ++ entry.name
    let updownPath := winDir ++ "/updown_state.jsonl"
    let btcPath := winDir ++ "/btc_reference.jsonl"
    let parsedById := parseMarketMeta entry.name
    let st0 : PartScanState :=
      { parsed := parsedById
        marketSlug := entry.name
        window := parsedById.map (fun m => newWindow date entry.name entry.name m) }
    let r1 := eachJsonl updownPath entry.updownFile warnings (scanUpdownRowPart date entry.name) st0
    match r1.2.parsed, r1.2.window with
    | some m, some win =>
      if m.minutes ≠ 5 then (windows, r1.1, counters)
      else
        let counters := { counters with valid5mWindows := counters.valid5mWindows + 1 }
        let r2 := eachJsonl btcPath entry.btcFile r1.1 scanBtcRowPart win
        let win3 := finalizeWindow r2.2
        let counters :=
          if win3.isComplete then
            { counters with completeWindows := counters.completeWindows + 1 }
          else counters
        (windows ++ [win3], r2.1, counters)
    | _, _ => (windows, r1.1, counters)

/-- Translation of `loadPartitionedWindows` (stats5mPatterns.js lines
182-239), over the directory listing of one date. -/
def loadPartitionedWindows (date : String) (entries : List WinDirEntry)
    (warnings : Warnings) (counters : Counters) : List Window × Warnings × Counters :=
  entries.foldl (loadPartStep date) ([], warnings, counters)

/-- A syntactically valid 5-minute window directory whose log files are
both missing. -/
def emptyDirEntry : WinDirEntry :=
  { name := "btc-updown-5m-1234567890" }

/-- C3 counterexample: the partitioned stats loader keeps a window with
zero btc points and zero side points on both sides when the directory name
parses as a valid 5-minute window, directly contradicting the claim that
such windows are never included in the builder output. -/
theorem loadPartitionedWindows_keeps_empty_window :
    ∃ w ∈ (loadPartitionedWindows "2026-02-18" [emptyDirEntry] {} {}).1,
      w.btcPoints = [] ∧ w.upPoints = [] ∧ w.downPoints = [] := by
  decide

/-- Translation of `MARKET_WINDOW_MS` (replayServer.js line 31). -/
def MARKET_WINDOW_MS : Rat := 5 * 60 * 1000

/-- An interval summary built by the replay server
(`buildIntervalsFromWindowDirs`, replayServer.js lines 450-468).  The
`label` field (a UTC rendering of the bounds) is presentational and not
modelled. -/
structure Interval where
  windowId : String
  marketSlug : String
  startMs : Rat
  endMs : Rat
  btcPoints : Nat
  upPoints : Nat
  downPoints : Nat
  upSampleCount : Rat
  downSampleCount : Rat
  hasBtc : Bool
  hasOdds : Bool
  btcCoverageMs : Rat
  upCoverageMs : Rat
  downCoverageMs : Rat
  oddsCoverageMs : Rat
  isComplete : Bool
deriving Repr, DecidableEq, Inhabited

/-- The replay server `eachJsonl` (replayServer.js lines 91-106): like the
stats one but silently skipping blank and bad lines, with no warnings. -/
def eachJsonlQuiet {σ : Type} (file : Option (List JLine)) (onRow : Row → σ → σ)
    (init : σ) : σ :=
  match file with
  | none => init
  | some lines =>
    lines.foldl (fun s l => match l with | .good r => onRow r s | _ => s) init

/-- Accumulator of the updown scan of `buildIntervalsFromWindowDirs`
(replayServer.js lines 391-423). -/
structure UScan where
  marketSlug : String
  upPoints : Nat := 0
  downPoints : Nat := 0
  upSampleCount : Rat := 0
  downSampleCount : Rat := 0
  upMinMs : Option Rat := none
  upMaxMs : Option Rat := none
  downMinMs : Option Rat := none
  downMaxMs : Option Rat := none
deriving Repr, DecidableEq, Inhabited

/-- The updown-row callback of `buildIntervalsFromWindowDirs` (lines
403-423). -/
def scanUpdownReplay (r : Row) (st : UScan) : UScan :=
  let ts := toUpdownPointTimeMs r
  let side := (r.side.getD "").toLower
  let odds := match r.mid with | some v => some v | none => r.last_trade_price
  let sampleCount := max 1 ((r.sample_count).getD 1)
  match ts, odds with
  | some t, some _ =>
    let slug := r.market_slug.getD ""
    let st := if st.marketSlug = "" ∧ slug ≠ "" then { st with marketSlug := slug } else st
    if side = "up" then
      { st with
        upPoints := st.upPoints + 1
        upSampleCount := st.upSampleCount + sampleCount
        upMinMs := some (match st.upMinMs with | none => t | some m => min m t)
        upMaxMs := some (match st.upMaxMs with | none => t | some m => max m t) }
    else if side = "down" then
      { st with
        downPoints := st.downPoints + 1
        downSampleCount := st.downSampleCount + sampleCount
        downMinMs := some (match st.downMinMs with | none => t | some m => min m t)
        downMaxMs := some (match st.downMaxMs with | none => t | some m => max m t) }
    else st
  | _, _ => st

/-- Accumulator of the btc scan (replayServer.js lines 425-432). -/
structure BScan where
  btcPoints : Nat := 0
  btcMinMs : Option Rat := none
  btcMaxMs : Option Rat := none
deriving Repr, DecidableEq, Inhabited

/-- The btc-row callback of `buildIntervalsFromWindowDirs`; the replay
server uses `toTimeMs`, identical to `toBtcTimeMs`. -/
def scanBtcReplay (r : Row) (st : BScan) : BScan :=
  match toBtcTimeMs r, r.price with
  | some t, some _ =>
    { btcPoints := st.btcPoints + 1
      btcMinMs := some (match st.btcMinMs with | none => t | some m => min m t)
      btcMaxMs := some (match st.btcMaxMs with | none => t | some m => max m t) }
  | _, _ => st

/-- Fold `Math.min(...)` over the present values. -/
def minOpt (xs : List (Option Rat)) : Option Rat :=
  (xs.filterMap id).foldl (fun acc v => some (match acc with | none => v | some m => min m v)) none

/-- Fold `Math.max(...)` over the present values. -/
def maxOpt (xs : List (Option Rat)) : Option Rat :=
  (xs.filterMap id).foldl (fun acc v => some (match acc with | none => v | some m => max m v)) none

/-- The updown scan of one window directory (replayServer.js lines
385-423): the initial market slug is the directory name, blanked for the
`_unassigned` directory. -/
def uScanOf (entry : WinDirEntry) : UScan :=
  eachJsonlQuiet entry.updownFile scanUpdownReplay
    { marketSlug := if entry.name = "_unassigned" then "" else entry.name }

/-- The btc scan of one window directory (lines 425-432). -/
def bScanOf (entry : WinDirEntry) : BScan :=
  eachJsonlQuiet entry.btcFile scanBtcReplay {}

/-- The bound derivation of `buildIntervalsFromWindowDirs` (lines 386-439):
bounds parsed from the directory name when possible, otherwise from the
observed data extents; `none` when neither bound can be derived; a
non-positive span is widened to the nominal window length. -/
def intervalBounds (entry : WinDirEntry) (u : UScan) (b : BScan) : Option (Rat × Rat) :=
  let parsedStartMs := parseMarketStartMsFromSlug entry.name
  let parsedWindowMs := (parseMarketWindowMsFromSlug entry.name).getD MARKET_WINDOW_MS
  let startMs1 := match parsedStartMs with
    | some v => some v
    | none => minOpt [b.btcMinMs, u.upMinMs, u.downMinMs]
  let endMs1 := match parsedStartMs.map (fun v => v + parsedWindowMs) with
    | some v => some v
    | none => maxOpt [b.btcMaxMs, u.upMaxMs, u.downMaxMs]
  match startMs1, endMs1 with
  | some startMs, some endMsA =>
    some (startMs,
      if endMsA ≤ startMs then
        startMs + ((parseMarketWindowMsFromSlug u.marketSlug).getD MARKET_WINDOW_MS)
      else endMsA)
  | _, _ => none

/-- The interval record pushed at replayServer.js lines 450-468. -/
def mkInterval (entry : WinDirEntry) (u : UScan) (b : BScan) (startMs endMs : Rat) :
    Interval :=
  let btcCoverageMs := match b.btcMinMs, b.btcMaxMs with
    | some mn, some mx => mx - mn
    | _, _ => 0
  let upCoverageMs := match u.upMinMs, u.upMaxMs with
    | some mn, some mx => mx - mn
    | _, _ => 0
  let downCoverageMs := match u.downMinMs, u.downMaxMs with
    | some mn, some mx => mx - mn
    | _, _ => 0
  let oddsCoverageMs := max upCoverageMs downCoverageMs
  { windowId := entry.name
    marketSlug := u.marketSlug
    startMs := startMs
    endMs := endMs
    btcPoints := b.btcPoints
    upPoints := u.upPoints
    downPoints := u.downPoints
    upSampleCount := u.upSampleCount
    downSampleCount := u.downSampleCount
    hasBtc := decide (0 < b.btcPoints)
    hasOdds := decide (0 < u.upPoints) || decide (0 < u.downPoints)
    btcCoverageMs := btcCoverageMs
    upCoverageMs := upCoverageMs
    downCoverageMs := downCoverageMs
    oddsCoverageMs := oddsCoverageMs
    isComplete := decide (COMPLETE_MIN_MS ≤ btcCoverageMs) &&
      decide (COMPLETE_MIN_MS ≤ oddsCoverageMs) }

/-- The body of the window-directory loop of `buildIntervalsFromWindowDirs`
(replayServer.js lines 381-469); `none` models `continue`.  A directory
with both log files missing is skipped; a candidate with zero btc points
or zero points on both sides is skipped (line 442). -/
def buildIntervalForDir (entry : WinDirEntry) : Option Interval :=
  if entry.updownFile.isNone ∧ entry.btcFile.isNone then none
  else
    let u := uScanOf entry
    let b := bScanOf entry
    match intervalBounds entry u b with
    | none => none
    | some (startMs, endMs) =>
      if decide (0 < b.btcPoints) && (decide (0 < u.upPoints) || decide (0 < u.downPoints))
      then some (mkInterval entry u b startMs endMs)
      else none

/-- Ordering of the final interval sort (`(a, b) => a.startMs - b.startMs`). -/
def ivLe (a b : Interval) : Prop := a.startMs ≤ b.startMs

instance : DecidableRel ivLe := fun a b => inferInstanceAs (Decidable (a.startMs ≤ b.startMs))

/-- Translation of `buildIntervalsFromWindowDirs` (replayServer.js lines
379-473): one candidate interval per window directory, `continue`
modelled by `Option.none` through `filterMap`, sorted by start time. -/
def buildIntervalsFromWindowDirs (entries : List WinDirEntry) : List Interval :=
  (entries.filterMap buildIntervalForDir).insertionSort ivLe

lemma buildIntervalForDir_points {entry : WinDirEntry} {iv : Interval}
    (h : buildIntervalForDir entry = some iv) :
    0 < iv.btcPoints ∧ (0 < iv.upPoints ∨ 0 < iv.downPoints) ∧
      iv.hasBtc = true ∧ iv.hasOdds = true := by
  unfold buildIntervalForDir at h
  split at h
  · exact absurd h (by simp)
  · dsimp only at h
    split at h
    · exact absurd h (by simp)
    · split at h
      · next hguard =>
        injection h with h
        subst h
        simp only [Bool.and_eq_true, decide_eq_true_eq, Bool.or_eq_true] at hguard
        simp only [mkInterval, Bool.and_eq_true, decide_eq_true_eq, Bool.or_eq_true]
        exact ⟨hguard.1, hguard.2, hguard.1, hguard.2⟩
      · exact absurd h (by simp)

/-- C3 (amended): every interval produced by the replay server builder for
the partitioned layout has at least one btc point and at least one side
point on some side — zero-point candidates are dropped — whereas the
stats5mPatterns loaders do include zero-point windows whose identifier
parses as a valid 5-minute window (see the counterexample). -/
theorem buildIntervalsFromWindowDirs_filters_empty (entries : List WinDirEntry) :
    (buildIntervalsFromWindowDirs entries).all
      (fun iv => decide (0 < iv.btcPoints) &&
        (decide (0 < iv.upPoints) || decide (0 < iv.downPoints)) &&
        iv.hasBtc && iv.hasOdds) = true := by
  rw [List.all_eq_true]
  intro iv hiv
  have hmem : iv ∈ entries.filterMap buildIntervalForDir :=
    (List.perm_insertionSort ivLe _).mem_iff.mp hiv
  rcases List.mem_filterMap.mp hmem with ⟨entry, _, hsome⟩
  obtain ⟨h1, h2, h3, h4⟩ := buildIntervalForDir_points hsome
  simp only [Bool.and_eq_true, decide_eq_true_eq, Bool.or_eq_true, h3, h4, and_true]
  exact ⟨h1, h2⟩

/-- One side hit of a stored pattern record. -/
structure SideHit where
  side : String
  metrics : Option (List (String × Option Rat))
deriving Repr, DecidableEq, Inhabited

/-- The pattern info computed by `computePatternInfoForInterval`. -/
structure PatternInfo where
  patterns : List PatternId
  patternPrimary : Option PatternId
  patternSideHits : List (PatternId × List SideHit)
deriving Repr, DecidableEq, Inhabited

/-- A persisted per-window pattern store record (replayServer.js lines
797-811). -/
structure StoreRecord where
  windowId : String
  marketSlug : String
  windowStartMs : Rat
  windowEndMs : Rat
  isComplete : Bool
  includeIncomplete : Bool
  sourceSignature : String
  patternSetVersion : String
  paramsHash : String
  computedAtMs : Rat
  patterns : List PatternId
  patternPrimary : Option PatternId
  patternSideHits : List (PatternId × List SideHit)
deriving Repr, DecidableEq, Inhabited

/-- The current pattern-config expectations from
`resolvePatternConfigState`. -/
structure ConfigState where
  hash : String
  patternSetVersion : String
deriving Repr, DecidableEq, Inhabited

/-- Generic first-binding lookup in a string-keyed association list. -/
def lookupAssoc {α : Type} : List (String × α) → String → Option α
  | [], _ => none
  | (k2, v) :: rest, k => if k2 = k then some v else lookupAssoc rest k

/-- JS object assignment `m[k] = v` on an association list: replace the
binding in place, or append a new one. -/
def setAssoc {α : Type} : List (String × α) → String → α → List (String × α)
  | [], k, v => [(k, v)]
  | (k2, v2) :: rest, k, v =>
    if k2 = k then (k2, v) :: rest else (k2, v2) :: setAssoc rest k v

/-- Translation of `getIntervalPatternKey` (replayServer.js lines
249-255). -/
def getIntervalPatternKey (interval : Interval) : String :=
  let raw := jsTrim (if interval.windowId ≠ "" then interval.windowId else interval.marketSlug)
  if raw ≠ "" then raw
  else "window-" ++ ratRender interval.startMs ++ "-" ++ ratRender interval.endMs

/-- The fresh record built when a store record cannot be reused
(replayServer.js lines 797-811). -/
def freshRecord (interval : Interval) (includeIncomplete : Bool) (cs : ConfigState)
    (sourceSignature : String) (now : Rat) (info : PatternInfo) : StoreRecord :=
  { windowId := getIntervalPatternKey interval
    marketSlug := if interval.marketSlug ≠ "" then interval.marketSlug
                  else getIntervalPatternKey interval
    windowStartMs := interval.startMs
    windowEndMs := interval.endMs
    isComplete := interval.isComplete
    includeIncomplete := includeIncomplete
    sourceSignature := sourceSignature
    patternSetVersion := cs.patternSetVersion
    paramsHash := cs.hash
    computedAtMs := now
    patterns := info.patterns
    patternPrimary := info.patternPrimary
    patternSideHits := info.patternSideHits }

/-- The per-interval loop of `buildPatternIndexForDate` (replayServer.js
lines 774-817): `sig` stands for `getIntervalSourceSignature`, `compute`
for `computePatternInfoForInterval` (only invoked on a cache miss), and
`now` for `Date.now()`.  Besides `nextWindows` the loop returns the keys
on which the evaluator was invoked, making re-invocation observable. -/
def buildPatternLoop (includeIncomplete : Bool) (cs : ConfigState)
    (sig : Interval → String) (compute : Interval → PatternInfo) (now : Rat)
    (existing : List (String × StoreRecord)) :
    List Interval → List (String × StoreRecord) → List String →
      List (String × StoreRecord) × List String
  | [], next, invoked => (next, invoked)
  | interval :: rest, next, invoked =>
    let key := getIntervalPatternKey interval
    let sourceSignature := sig interval
    match lookupAssoc existing key with
    | some prev =>
      if prev.sourceSignature = sourceSignature ∧ prev.paramsHash = cs.hash ∧
          prev.patternSetVersion = cs.patternSetVersion ∧
          prev.includeIncomplete = includeIncomplete then
        buildPatternLoop includeIncomplete cs sig compute now existing rest
          (setAssoc next key prev) invoked
      else
        buildPatternLoop includeIncomplete cs sig compute now existing rest
          (setAssoc next key
            (freshRecord interval includeIncomplete cs sourceSignature now (compute interval)))
          (invoked ++ [key])
    | none =>
      buildPatternLoop includeIncomplete cs sig compute now existing rest
        (setAssoc next key
          (freshRecord interval includeIncomplete cs sourceSignature now (compute interval)))
        (invoked ++ [key])

lemma lookupAssoc_setAssoc_self {α : Type} (l : List (String × α)) (k : String) (v : α) :
    lookupAssoc (setAssoc l k v) k = some v := by
  induction l with
  | nil => simp [setAssoc, lookupAssoc]
  | cons p rest ih =>
    obtain ⟨k2, v2⟩ := p
    by_cases h : k2 = k
    · simp [setAssoc, lookupAssoc, h]
    · simp [setAssoc, lookupAssoc, h, ih]

lemma lookupAssoc_setAssoc_ne {α : Type} (l : List (String × α)) (k k2 : String) (v : α)
    (h : k ≠ k2) : lookupAssoc (setAssoc l k v) k2 = lookupAssoc l k2 := by
  induction l with
  | nil => simp [setAssoc, lookupAssoc, h]
  | cons p rest ih =>
    obtain ⟨k3, v3⟩ := p
    by_cases h3 : k3 = k
    · subst h3
      simp [setAssoc, lookupAssoc, h]
    · simp [setAssoc, lookupAssoc, h3, ih]

/-- Frame property: intervals whose keys differ from `key` neither change
its binding nor invoke the evaluator on it. -/
lemma buildPatternLoop_frame (includeIncomplete : Bool) (cs : ConfigState)
    (sig : Interval → String) (compute : Interval → PatternInfo) (now : Rat)
    (existing : List (String × StoreRecord)) (key : String) :
    ∀ (intervals : List Interval), key ∉ intervals.map getIntervalPatternKey →
      ∀ (next : List (String × StoreRecord)) (invoked : List String),
        lookupAssoc (buildPatternLoop includeIncomplete cs sig compute now existing
            intervals next invoked).1 key = lookupAssoc next key ∧
        ((key ∈ (buildPatternLoop includeIncomplete cs sig compute now existing
            intervals next invoked).2) ↔ key ∈ invoked) := by
  intro intervals
  induction intervals with
  | nil => intro _ next invoked; exact ⟨rfl, Iff.rfl⟩
  | cons interval rest ih =>
    intro hnot next invoked
    have hk : getIntervalPatternKey interval ≠ key := by
      intro h
      exact hnot (by rw [List.map_cons, ← h]; exact List.mem_cons_self _ _)
    have hrest : key ∉ rest.map getIntervalPatternKey := by
      intro h
      exact hnot (by rw [List.map_cons]; exact List.mem_cons_of_mem _ h)
    rcases hprev : lookupAssoc existing (getIntervalPatternKey interval) with _ | prev
    · unfold buildPatternLoop
      simp only [hprev]
      obtain ⟨h1, h2⟩ := ih hrest
        (setAssoc next (getIntervalPatternKey interval)
          (freshRecord interval includeIncomplete cs (sig interval) now (compute interval)))
        (invoked ++ [getIntervalPatternKey interval])
      refine ⟨by rw [h1, lookupAssoc_setAssoc_ne _ _ _ _ hk], ?_⟩
      have hk2 : key ≠ getIntervalPatternKey interval := fun h => hk h.symm
      rw [h2, List.mem_append]
      simp [hk2]
    · unfold buildPatternLoop
      simp only [hprev]
      by_cases hreuse : prev.sourceSignature = sig interval ∧ prev.paramsHash = cs.hash ∧
          prev.patternSetVersion = cs.patternSetVersion ∧
          prev.includeIncomplete = includeIncomplete
      · rw [if_pos hreuse]
        obtain ⟨h1, h2⟩ := ih hrest
          (setAssoc next (getIntervalPatternKey interval) prev) invoked
        exact ⟨by rw [h1, lookupAssoc_setAssoc_ne _ _ _ _ hk], h2⟩
      · rw [if_neg hreuse]
        obtain ⟨h1, h2⟩ := ih hrest
          (setAssoc next (getIntervalPatternKey interval)
            (freshRecord interval includeIncomplete cs (sig interval) now (compute interval)))
          (invoked ++ [getIntervalPatternKey interval])
        refine ⟨by rw [h1, lookupAssoc_setAssoc_ne _ _ _ _ hk], ?_⟩
        have hk2 : key ≠ getIntervalPatternKey interval := fun h => hk h.symm
        rw [h2, List.mem_append]
        simp [hk2]

/-- The reuse condition of the claim: a stored record exists and its four
signature fields all equal the current expectations. -/
def reuseCondition (existing : List (String × StoreRecord)) (key : String)
    (sigVal : String) (cs : ConfigState) (includeIncomplete : Bool) : Prop :=
  ∃ prev, lookupAssoc existing key = some prev ∧
    prev.sourceSignature = sigVal ∧ prev.paramsHash = cs.hash ∧
    prev.patternSetVersion = cs.patternSetVersion ∧
    prev.includeIncomplete = includeIncomplete

/-- C9: when building the pattern index, a stored record is returned as-is
with the evaluator not invoked on its window iff its `sourceSignature`,
`paramsHash`, `patternSetVersion` and `includeIncomplete` flag all equal
the current expectations; otherwise the info is recomputed from the source
points and the record replaced. -/
theorem buildPatternLoop_reuse (includeIncomplete : Bool) (cs : ConfigState)
    (sig : Interval → String) (compute : Interval → PatternInfo) (now : Rat)
    (existing : List (String × StoreRecord)) (intervals : List Interval)
    (hkeys : (intervals.map getIntervalPatternKey).Nodup)
    (itv : Interval) (hmem : itv ∈ intervals) :
    (reuseCondition existing (getIntervalPatternKey itv) (sig itv) cs includeIncomplete →
      lookupAssoc (buildPatternLoop includeIncomplete cs sig compute now existing
          intervals [] []).1 (getIntervalPatternKey itv) =
        lookupAssoc existing (getIntervalPatternKey itv) ∧
      getIntervalPatternKey itv ∉ (buildPatternLoop includeIncomplete cs sig compute now
        existing intervals [] []).2) ∧
    (¬ reuseCondition existing (getIntervalPatternKey itv) (sig itv) cs includeIncomplete →
      lookupAssoc (buildPatternLoop includeIncomplete cs sig compute now existing
          intervals [] []).1 (getIntervalPatternKey itv) =
        some (freshRecord itv includeIncomplete cs (sig itv) now (compute itv)) ∧
      getIntervalPatternKey itv ∈ (buildPatternLoop includeIncomplete cs sig compute now
        existing intervals [] []).2) := by
  suffices h : ∀ (intervals : List Interval),
      (intervals.map getIntervalPatternKey).Nodup → ∀ itv, itv ∈ intervals →
      ∀ (next : List (String × StoreRecord)) (invoked : List String),
        getIntervalPatternKey itv ∉ invoked →
        (reuseCondition existing (getIntervalPatternKey itv) (sig itv) cs includeIncomplete →
          lookupAssoc (buildPatternLoop includeIncomplete cs sig compute now existing
              intervals next invoked).1 (getIntervalPatternKey itv) =
            lookupAssoc existing (getIntervalPatternKey itv) ∧
          getIntervalPatternKey itv ∉ (buildPatternLoop includeIncomplete cs sig compute now
            existing intervals next invoked).2) ∧
        (¬ reuseCondition existing (getIntervalPatternKey itv) (sig itv) cs includeIncomplete →
          lookupAssoc (buildPatternLoop includeIncomplete cs sig compute now existing
              intervals next invoked).1 (getIntervalPatternKey itv) =
            some (freshRecord itv includeIncomplete cs (sig itv) now (compute itv)) ∧
          getIntervalPatternKey itv ∈ (buildPatternLoop includeIncomplete cs sig compute now
            existing intervals next invoked).2) by
    exact h intervals hkeys itv hmem [] [] (List.not_mem_nil _)
  intro intervals
  induction intervals with
  | nil => intro _ itv hmem; cases hmem
  | cons interval rest ih =>
    intro hnd itv hmem next invoked hinv
    rw [List.map_cons, List.nodup_cons] at hnd
    rcases List.mem_cons.mp hmem with rfl | hmemrest
    · have hnotrest : getIntervalPatternKey itv ∉ rest.map getIntervalPatternKey := hnd.1
      constructor
      · rintro ⟨prev, hprev, hs, hh, hv, hi⟩
        unfold buildPatternLoop
        simp only [hprev]
        rw [if_pos ⟨hs, hh, hv, hi⟩]
        obtain ⟨h1, h2⟩ := buildPatternLoop_frame includeIncomplete cs sig compute now
          existing (getIntervalPatternKey itv) rest hnotrest
          (setAssoc next (getIntervalPatternKey itv) prev) invoked
        refine ⟨?_, ?_⟩
        · rw [h1, lookupAssoc_setAssoc_self]
        · rw [h2]; exact hinv
      · intro hno
        rcases hprev : lookupAssoc existing (getIntervalPatternKey itv) with _ | prev
        · unfold buildPatternLoop
          simp only [hprev]
          obtain ⟨h1, h2⟩ := buildPatternLoop_frame includeIncomplete cs sig compute now
            existing (getIntervalPatternKey itv) rest hnotrest
            (setAssoc next (getIntervalPatternKey itv)
              (freshRecord itv includeIncomplete cs (sig itv) now (compute itv)))
            (invoked ++ [getIntervalPatternKey itv])
          refine ⟨by rw [h1, lookupAssoc_setAssoc_self], ?_⟩
          rw [h2, List.mem_append]
          simp
        · have hfail : ¬ (prev.sourceSignature = sig itv ∧ prev.paramsHash = cs.hash ∧
              prev.patternSetVersion = cs.patternSetVersion ∧
              prev.includeIncomplete = includeIncomplete) := by
            intro hc
            exact hno ⟨prev, hprev, hc.1, hc.2.1, hc.2.2.1, hc.2.2.2⟩
          unfold buildPatternLoop
          simp only [hprev]
          rw [if_neg hfail]
          obtain ⟨h1, h2⟩ := buildPatternLoop_frame includeIncomplete cs sig compute now
            existing (getIntervalPatternKey itv) rest hnotrest
            (setAssoc next (getIntervalPatternKey itv)
              (freshRecord itv includeIncomplete cs (sig itv) now (compute itv)))
            (invoked ++ [getIntervalPatternKey itv])
          refine ⟨by rw [h1, lookupAssoc_setAssoc_self], ?_⟩
          rw [h2, List.mem_append]
          simp
    · have hk : getIntervalPatternKey itv ≠ getIntervalPatternKey interval := by
        intro h
        exact hnd.1 (h ▸ List.mem_map.mpr ⟨itv, hmemrest, rfl⟩)
      rcases hprev : lookupAssoc existing (getIntervalPatternKey interval) with _ | prev
      · unfold buildPatternLoop
        simp only [hprev]
        exact ih hnd.2 itv hmemrest _ _
          (by rw [List.mem_append]; simp [hinv, hk])
      · unfold buildPatternLoop
        simp only [hprev]
        by_cases hreuse : prev.sourceSignature = sig interval ∧ prev.paramsHash = cs.hash ∧
            prev.patternSetVersion = cs.patternSetVersion ∧
            prev.includeIncomplete = includeIncomplete
        · rw [if_pos hreuse]
          exact ih hnd.2 itv hmemrest _ _ hinv
        · rw [if_neg hreuse]
          exact ih hnd.2 itv hmemrest _ _
            (by rw [List.mem_append]; simp [hinv, hk])

/-- A concrete interval for the C9 witness. -/
def c9Interval : Interval := { (default : Interval) with windowId := "w1" }

/-- A stored record matching the C9 witness expectations. -/
def c9Record : StoreRecord :=
  { windowId := "w1", marketSlug := "w1", windowStartMs := 0, windowEndMs := 300000,
    isComplete := true, includeIncomplete := false, sourceSignature := "sigw1",
    patternSetVersion := "1", paramsHash := "h1", computedAtMs := 0,
    patterns := [], patternPrimary := none, patternSideHits := [] }

/-- The config expectations of the C9 witness. -/
def c9ConfigState : ConfigState := { hash := "h1", patternSetVersion := "1" }

/-- Witness for C9: with one interval whose stored record matches all four
expectations, the loop returns the stored record as-is and never invokes
the evaluator. -/
theorem buildPatternLoop_reuse_witness :
    ([c9Interval].map getIntervalPatternKey).Nodup ∧
    c9Interval ∈ [c9Interval] ∧
    reuseCondition [("w1", c9Record)] (getIntervalPatternKey c9Interval)
      ((fun _ => "sigw1") c9Interval) c9ConfigState false ∧
    (lookupAssoc (buildPatternLoop false c9ConfigState (fun _ => "sigw1")
        (fun _ => (default : PatternInfo)) 0 [("w1", c9Record)] [c9Interval] [] []).1
        (getIntervalPatternKey c9Interval) =
      lookupAssoc [("w1", c9Record)] (getIntervalPatternKey c9Interval) ∧
     getIntervalPatternKey c9Interval ∉
      (buildPatternLoop false c9ConfigState (fun _ => "sigw1")
        (fun _ => (default : PatternInfo)) 0 [("w1", c9Record)] [c9Interval] [] []).2) :=
  ⟨by simp, by simp, ⟨c9Record, rfl, rfl, rfl, rfl, rfl⟩,
    (buildPatternLoop_reuse false c9ConfigState (fun _ => "sigw1")
      (fun _ => (default : PatternInfo)) 0 [("w1", c9Record)] [c9Interval]
      (by simp) c9Interval (by simp)).1
      ⟨c9Record, rfl, rfl, rfl, rfl, rfl⟩⟩

lemma charToNat_inj {c d : Char} (h : c.toNat = d.toNat) : c = d :=
  Char.eq_of_val_eq (UInt32.eq_of_val_eq (Fin.ext h))

lemma charListLe_total : ∀ a b : List Char, charListLe a b = true ∨ charListLe b a = true := by
  intro a
  induction a with
  | nil => intro b; left; rfl
  | cons c cs ih =>
    intro b
    cases b with
    | nil => right; rfl
    | cons d ds =>
      by_cases h1 : c.toNat < d.toNat
      · left; simp [charListLe, h1]
      · by_cases h2 : d.toNat < c.toNat
        · right; simp [charListLe, h2]
        · rcases ih ds with h | h
          · left; simp [charListLe, h1, h2, h]
          · right; simp [charListLe, h1, h2, h]

lemma charListLe_antisymm : ∀ a b : List Char,
    charListLe a b = true → charListLe b a = true → a = b := by
  intro a
  induction a with
  | nil =>
    intro b _ hba
    cases b with
    | nil => rfl
    | cons d ds => simp [charListLe] at hba
  | cons c cs ih =>
    intro b hab hba
    cases b with
    | nil => simp [charListLe] at hab
    | cons d ds =>
      by_cases h1 : c.toNat < d.toNat
      · have h1b : ¬ d.toNat < c.toNat := by omega
        simp only [charListLe, if_neg h1b, if_pos h1] at hba
        cases hba
      · by_cases h2 : d.toNat < c.toNat
        · simp only [charListLe, if_neg h1, if_pos h2] at hab
          cases hab
        · have hcd : c = d := charToNat_inj (by omega)
          subst hcd
          simp only [charListLe, if_neg h1, if_neg h2] at hab hba
          rw [ih ds hab hba]

lemma charListLe_trans : ∀ a b c : List Char,
    charListLe a b = true → charListLe b c = true → charListLe a c = true := by
  intro a
  induction a with
  | nil => intro b c _ _; rfl
  | cons x xs ih =>
    intro b c hab hbc
    cases b with
    | nil => simp [charListLe] at hab
    | cons y ys =>
      cases c with
      | nil => simp [charListLe] at hbc
      | cons z zs =>
        by_cases h1 : x.toNat < y.toNat
        · by_cases h2 : y.toNat < z.toNat
          · simp [charListLe, show x.toNat < z.toNat by omega]
          · by_cases h3 : z.toNat < y.toNat
            · have h2b : ¬ y.toNat < z.toNat := by omega
              simp only [charListLe, if_neg h2b, if_pos h3] at hbc
              cases hbc
            · simp [charListLe, show x.toNat < z.toNat by omega]
        · by_cases h1b : y.toNat < x.toNat
          · simp only [charListLe, if_neg h1, if_pos h1b] at hab
            cases hab
          · simp only [charListLe, if_neg h1, if_neg h1b] at hab
            by_cases h2 : y.toNat < z.toNat
            · simp [charListLe, show x.toNat < z.toNat by omega]
            · by_cases h3 : z.toNat < y.toNat
              · simp only [charListLe, if_neg h2, if_pos h3] at hbc
                cases hbc
              · simp only [charListLe, if_neg h2, if_neg h3] at hbc
                have hxz1 : ¬ x.toNat < z.toNat := by omega
                have hxz2 : ¬ z.toNat < x.toNat := by omega
                simp only [charListLe, if_neg hxz1, if_neg hxz2]
                exact ih ys zs hab hbc

lemma strLeB_total (a b : String) : strLeB a b = true ∨ strLeB b a = true :=
  charListLe_total a.data b.data

lemma strLeB_antisymm {a b : String} (h1 : strLeB a b = true) (h2 : strLeB b a = true) :
    a = b :=
  String.ext (charListLe_antisymm a.data b.data h1 h2)

lemma strLeB_trans {a b c : String} (h1 : strLeB a b = true) (h2 : strLeB b c = true) :
    strLeB a c = true :=
  charListLe_trans a.data b.data c.data h1 h2

instance : IsAntisymm String (fun a b => strLeB a b = true) := ⟨fun _ _ => strLeB_antisymm⟩

lemma insertKey_perm (k : String) (l : List String) : (insertKey k l).Perm (k :: l) := by
  induction l with
  | nil => exact List.Perm.refl _
  | cons k2 rest ih =>
    unfold insertKey
    by_cases h : strLeB k k2 = true
    · rw [if_pos h]
    · rw [if_neg h]
      exact (ih.cons k2).trans (List.Perm.swap k k2 rest)

lemma sortKeys_perm (l : List String) : (sortKeys l).Perm l := by
  induction l with
  | nil => exact List.Perm.refl _
  | cons k rest ih =>
    exact (insertKey_perm k (sortKeys rest)).trans (ih.cons k)

lemma insertKey_sorted (k : String) (l : List String)
    (hl : l.Pairwise (fun a b => strLeB a b = true)) :
    (insertKey k l).Pairwise (fun a b => strLeB a b = true) := by
  induction l with
  | nil => simp [insertKey]
  | cons k2 rest ih =>
    rcases List.pairwise_cons.mp hl with ⟨hk2, hrest⟩
    unfold insertKey
    by_cases h : strLeB k k2 = true
    · rw [if_pos h]
      refine List.pairwise_cons.mpr ⟨?_, hl⟩
      intro x hx
      rcases List.mem_cons.mp hx with rfl | hx
      · exact h
      · exact strLeB_trans h (hk2 x hx)
    · rw [if_neg h]
      refine List.pairwise_cons.mpr ⟨?_, ih hrest⟩
      intro x hx
      have hx2 := (insertKey_perm k rest).mem_iff.mp hx
      rcases List.mem_cons.mp hx2 with rfl | hx2
      · rcases strLeB_total k2 x with htot | htot
        · exact htot
        · exact absurd htot h
      · exact hk2 x hx2

lemma sortKeys_sorted (l : List String) :
    (sortKeys l).Pairwise (fun a b => strLeB a b = true) := by
  induction l with
  | nil => simp [sortKeys]
  | cons k rest ih => exact insertKey_sorted k (sortKeys rest) ih

lemma sortKeys_eq_of_perm {l1 l2 : List String} (h : l1.Perm l2) :
    sortKeys l1 = sortKeys l2 :=
  List.eq_of_perm_of_sorted ((sortKeys_perm l1).trans (h.trans (sortKeys_perm l2).symm))
    (sortKeys_sorted l1) (sortKeys_sorted l2)

lemma digitChar_isDigit {d : Nat} (hd : d < 10) : (Nat.digitChar d).isDigit = true := by
  interval_cases d <;> decide

lemma digitChar_inj {d e : Nat} (hd : d < 10) (he : e < 10)
    (h : Nat.digitChar d = Nat.digitChar e) : d = e := by
  have key : ∀ x y : Fin 10, Nat.digitChar x.val = Nat.digitChar y.val → x = y := by decide
  have := key ⟨d, hd⟩ ⟨e, he⟩ h
  exact congrArg Fin.val this

lemma natRender_chars (n : Nat) : ∀ c ∈ (natRender n).data, c.isDigit = true := by
  unfold natRender
  by_cases h : n = 0
  · rw [if_pos h]
    intro c hc
    have : ("0" : String).data = ['0'] := rfl
    rw [this] at hc
    rcases List.mem_singleton.mp hc with rfl
    decide
  · rw [if_neg h]
    intro c hc
    have hdata : (String.mk (((Nat.digits 10 n).map Nat.digitChar).reverse)).data
        = ((Nat.digits 10 n).map Nat.digitChar).reverse := rfl
    rw [hdata, List.mem_reverse] at hc
    rcases List.mem_map.mp hc with ⟨d, hd, rfl⟩
    exact digitChar_isDigit (Nat.digits_lt_base (by norm_num) hd)

lemma natRender_data_ne_nil (n : Nat) : (natRender n).data ≠ [] := by
  unfold natRender
  by_cases h : n = 0
  · rw [if_pos h]
    intro hc
    have : ("0" : String).data = ['0'] := rfl
    rw [this] at hc
    cases hc
  · rw [if_neg h]
    intro hc
    have hdata : (String.mk (((Nat.digits 10 n).map Nat.digitChar).reverse)).data
        = ((Nat.digits 10 n).map Nat.digitChar).reverse := rfl
    rw [hdata] at hc
    have hne : Nat.digits 10 n ≠ [] := Nat.digits_ne_nil_iff_ne_zero.mpr h
    simp at hc
    exact hne hc

lemma map_digitChar_inj : ∀ l1 l2 : List Nat, (∀ d ∈ l1, d < 10) → (∀ d ∈ l2, d < 10) →
    l1.map Nat.digitChar = l2.map Nat.digitChar → l1 = l2 := by
  intro l1
  induction l1 with
  | nil =>
    intro l2 _ _ h
    cases l2 with
    | nil => rfl
    | cons d ds => simp at h
  | cons d ds ih =>
    intro l2 h1 h2 h
    cases l2 with
    | nil => simp at h
    | cons e es =>
      simp only [List.map_cons, List.cons.injEq] at h
      have hde : d = e := digitChar_inj (h1 d (by simp)) (h2 e (by simp)) h.1
      rw [hde, ih es (fun x hx => h1 x (by simp [hx])) (fun x hx => h2 x (by simp [hx])) h.2]

lemma natRender_inj {m n : Nat} (h : natRender m = natRender n) : m = n := by
  unfold natRender at h
  by_cases hm : m = 0 <;> by_cases hn : n = 0
  · omega
  · rw [if_pos hm, if_neg hn] at h
    have hdata : (['0'] : List Char) = ((Nat.digits 10 n).map Nat.digitChar).reverse :=
      congrArg String.data h
    have hrev : ((Nat.digits 10 n).map Nat.digitChar) = ['0'] := by
      have := congrArg List.reverse hdata
      simpa using this.symm
    have : Nat.digits 10 n = [0] := by
      have := map_digitChar_inj (Nat.digits 10 n) [0]
        (fun d hd => Nat.digits_lt_base (by norm_num) hd) (by simp)
        (by rw [hrev]; rfl)
      exact this
    have := congrArg (Nat.ofDigits 10) this
    rw [Nat.ofDigits_digits] at this
    simp [Nat.ofDigits] at this
    exact absurd this hn
  · rw [if_neg hm, if_pos hn] at h
    have hdata : ((Nat.digits 10 m).map Nat.digitChar).reverse = (['0'] : List Char) :=
      congrArg String.data h
    have hrev : ((Nat.digits 10 m).map Nat.digitChar) = ['0'] := by
      have := congrArg List.reverse hdata
      simpa using this
    have : Nat.digits 10 m = [0] := by
      exact map_digitChar_inj (Nat.digits 10 m) [0]
        (fun d hd => Nat.digits_lt_base (by norm_num) hd) (by simp)
        (by rw [hrev]; rfl)
    have := congrArg (Nat.ofDigits 10) this
    rw [Nat.ofDigits_digits] at this
    simp [Nat.ofDigits] at this
    exact absurd this hm
  · rw [if_neg hm, if_neg hn] at h
    have hdata := congrArg String.data h
    have hrev : ((Nat.digits 10 m).map Nat.digitChar)
        = ((Nat.digits 10 n).map Nat.digitChar) := by
      have := congrArg List.reverse hdata
      simpa using this
    have hdig := map_digitChar_inj _ _
      (fun d hd => Nat.digits_lt_base (by norm_num) hd)
      (fun d hd => Nat.digits_lt_base (by norm_num) hd) hrev
    have := congrArg (Nat.ofDigits 10) hdig
    rwa [Nat.ofDigits_digits, Nat.ofDigits_digits] at this

/-- The character alphabet of `ratRender`: digits, minus, slash. -/
def digitish (c : Char) : Bool := c.isDigit || c = '-' || c = '/'

lemma intRender_chars (i : Int) : ∀ c ∈ (intRender i).data, c.isDigit = true ∨ c = '-' := by
  unfold intRender
  by_cases h : i < 0
  · rw [if_pos h]
    intro c hc
    rw [String.data_append] at hc
    rcases List.mem_append.mp hc with hc | hc
    · right
      have : ("-" : String).data = ['-'] := rfl
      rw [this] at hc
      exact List.mem_singleton.mp hc
    · left; exact natRender_chars _ c hc
  · rw [if_neg h]
    intro c hc
    left; exact natRender_chars _ c hc

lemma intRender_data_ne_nil (i : Int) : (intRender i).data ≠ [] := by
  unfold intRender
  by_cases h : i < 0
  · rw [if_pos h, String.data_append]
    simp
  · rw [if_neg h]
    exact natRender_data_ne_nil _

lemma natRender_head_isDigit (n : Nat) {c : Char} {rest : List Char}
    (h : (natRender n).data = c :: rest) : c.isDigit = true :=
  natRender_chars n c (by rw [h]; exact List.mem_cons_self _ _)

lemma intRender_inj {i j : Int} (h : intRender i = intRender j) : i = j := by
  unfold intRender at h
  by_cases hi : i < 0 <;> by_cases hj : j < 0
  · rw [if_pos hi, if_pos hj] at h
    have hd := congrArg String.data h
    rw [String.data_append, String.data_append] at hd
    have hn : (natRender i.natAbs).data = (natRender j.natAbs).data :=
      List.append_cancel_left hd
    have := natRender_inj (String.ext hn)
    omega
  · rw [if_pos hi, if_neg hj] at h
    have hd := congrArg String.data h
    rw [String.data_append] at hd
    rcases hcase : (natRender j.natAbs).data with _ | ⟨c, rest⟩
    · exact absurd hcase (natRender_data_ne_nil _)
    · rw [hcase] at hd
      have hminus : ("-" : String).data = ['-'] := rfl
      rw [hminus] at hd
      have : '-' = c := by
        have := congrArg (fun l => l.headD ' ') hd
        simpa using this
      have hdig := natRender_head_isDigit j.natAbs hcase
      rw [← this] at hdig
      exact absurd hdig (by decide)
  · rw [if_neg hi, if_pos hj] at h
    have hd := congrArg String.data h
    rw [String.data_append] at hd
    rcases hcase : (natRender i.natAbs).data with _ | ⟨c, rest⟩
    · exact absurd hcase (natRender_data_ne_nil _)
    · rw [hcase] at hd
      have hminus : ("-" : String).data = ['-'] := rfl
      rw [hminus] at hd
      have : c = '-' := by
        have := congrArg (fun l => l.headD ' ') hd
        simpa using this
      have hdig := natRender_head_isDigit i.natAbs hcase
      rw [this] at hdig
      exact absurd hdig (by decide)
  · rw [if_neg hi, if_neg hj] at h
    have := natRender_inj h
    omega

lemma slash_not_in_natRender (n : Nat) : '/' ∉ (natRender n).data := by
  intro hc
  have := natRender_chars n _ hc
  exact absurd this (by decide)

lemma slash_not_in_intRender (i : Int) : '/' ∉ (intRender i).data := by
  intro hc
  rcases intRender_chars i _ hc with h | h
  · exact absurd h (by decide)
  · exact absurd h (by decide)

lemma slash_split : ∀ (a : List Char) {b : List Char} (c : List Char) {d : List Char},
    '/' ∉ a → '/' ∉ c → a ++ '/' :: b = c ++ '/' :: d → a = c ∧ b = d := by
  intro a
  induction a with
  | nil =>
    intro b c d _ hc h
    cases c with
    | nil => simpa using h
    | cons x xs =>
      simp only [List.nil_append, List.cons_append, List.cons.injEq] at h
      exact absurd (h.1 ▸ List.mem_cons_self '/' xs) (h.1 ▸ hc)
  | cons x xs ih =>
    intro b c d ha hc h
    cases c with
    | nil =>
      simp only [List.nil_append, List.cons_append, List.cons.injEq] at h
      exact absurd (h.1 ▸ List.mem_cons_self x xs) (by rw [h.1] at ha; exact fun hm => ha hm)
    | cons y ys =>
      simp only [List.cons_append, List.cons.injEq] at h
      obtain ⟨hxy, hrest⟩ := h
      have := ih ys (fun hm => ha (List.mem_cons_of_mem _ hm))
        (fun hm => hc (List.mem_cons_of_mem _ hm)) hrest
      exact ⟨by rw [hxy, this.1], this.2⟩

lemma ratRender_inj {q1 q2 : Rat} (h : ratRender q1 = ratRender q2) : q1 = q2 := by
  unfold ratRender at h
  by_cases h1 : q1.den = 1 <;> by_cases h2 : q2.den = 1
  · rw [if_pos h1, if_pos h2] at h
    have hnum := intRender_inj h
    exact Rat.ext hnum (by rw [h1, h2])
  · rw [if_pos h1, if_neg h2] at h
    have hd := congrArg String.data h
    rw [String.data_append, String.data_append] at hd
    have hslash : ("/" : String).data = ['/'] := rfl
    rw [hslash] at hd
    have hmem : '/' ∈ (intRender q1.num).data := by
      rw [hd]
      exact List.mem_append_left _ (List.mem_append_right _ (List.mem_singleton.mpr rfl))
    exact absurd hmem (slash_not_in_intRender _)
  · rw [if_neg h1, if_pos h2] at h
    have hd := congrArg String.data h
    rw [String.data_append, String.data_append] at hd
    have hslash : ("/" : String).data = ['/'] := rfl
    rw [hslash] at hd
    have hmem : '/' ∈ (intRender q2.num).data := by
      rw [← hd]
      exact List.mem_append_left _ (List.mem_append_right _ (List.mem_singleton.mpr rfl))
    exact absurd hmem (slash_not_in_intRender _)
  · rw [if_neg h1, if_neg h2] at h
    have hd := congrArg String.data h
    rw [String.data_append, String.data_append, String.data_append, String.data_append] at hd
    have hslash : ("/" : String).data = ['/'] := rfl
    rw [hslash] at hd
    simp only [List.append_assoc, List.singleton_append] at hd
    obtain ⟨ha, hb⟩ := slash_split _ _ (slash_not_in_intRender _) (slash_not_in_intRender _) hd
    have hnum := intRender_inj (String.ext ha)
    have hden := natRender_inj (String.ext hb)
    exact Rat.ext hnum hden

lemma ratRender_digitish (q : Rat) : ∀ c ∈ (ratRender q).data, digitish c = true := by
  unfold ratRender
  by_cases h : q.den = 1
  · rw [if_pos h]
    intro c hc
    rcases intRender_chars _ c hc with hd | hd
    · simp [digitish, hd]
    · simp [digitish, hd]
  · rw [if_neg h]
    intro c hc
    rw [String.data_append, String.data_append] at hc
    rcases List.mem_append.mp hc with hc | hc
    · rcases List.mem_append.mp hc with hc | hc
      · rcases intRender_chars _ c hc with hd | hd
        · simp [digitish, hd]
        · simp [digitish, hd]
      · have hslash : ("/" : String).data = ['/'] := rfl
        rw [hslash] at hc
        rcases List.mem_singleton.mp hc with rfl
        decide
    · have := natRender_chars _ c hc
      simp [digitish, this]

lemma ratRender_data_ne_nil (q : Rat) : (ratRender q).data ≠ [] := by
  unfold ratRender
  by_cases h : q.den = 1
  · rw [if_pos h]; exact intRender_data_ne_nil _
  · rw [if_neg h]
    rw [String.data_append, String.data_append]
    intro hc
    exact intRender_data_ne_nil _ (by
      rcases List.append_eq_nil.mp hc with ⟨hc1, _⟩
      rcases List.append_eq_nil.mp hc1 with ⟨hc2, _⟩
      exact hc2)

/-- Head of a character list is not in the render alphabet (vacuous for the
empty list). -/
def headNotDigitish (l : List Char) : Prop :=
  ∀ c, l.head? = some c → digitish c = false

lemma headNotDigitish_cons {c : Char} {rest : List Char} (h : digitish c = false) :
    headNotDigitish (c :: rest) := by
  intro d hd
  injection hd with hd
  rwa [← hd]

/-- A run of render-alphabet characters followed by a non-alphabet head is
uniquely delimited. -/
lemma digitrun_prefix_cancel : ∀ (a : List Char) {u : List Char} (b : List Char)
    {v : List Char}, (∀ c ∈ a, digitish c = true) → (∀ c ∈ b, digitish c = true) →
    headNotDigitish u → headNotDigitish v →
    a ++ u = b ++ v → a = b ∧ u = v := by
  intro a
  induction a with
  | nil =>
    intro u b v _ hb hu _ h
    cases b with
    | nil => exact ⟨rfl, by simpa using h⟩
    | cons x xs =>
      rw [List.nil_append, List.cons_append] at h
      have hx : digitish x = true := hb x (List.mem_cons_self _ _)
      have := hu x (by rw [h]; rfl)
      rw [this] at hx
      cases hx
  | cons x xs ih =>
    intro u b v ha hb hu hv h
    cases b with
    | nil =>
      rw [List.nil_append, List.cons_append] at h
      have hx : digitish x = true := ha x (List.mem_cons_self _ _)
      have := hv x (by rw [← h]; rfl)
      rw [this] at hx
      cases hx
    | cons y ys =>
      simp only [List.cons_append, List.cons.injEq] at h
      obtain ⟨hxy, hrest⟩ := h
      have := ih ys (fun c hc => ha c (List.mem_cons_of_mem _ hc))
        (fun c hc => hb c (List.mem_cons_of_mem _ hc)) hu hv hrest
      exact ⟨by rw [hxy, this.1], this.2⟩

/-- Cancel one rendered number from the front of two equal serialized
streams. -/
lemma render_cancel {x y : Rat} {u v : List Char} (hu : headNotDigitish u)
    (hv : headNotDigitish v)
    (h : (ratRender x).data ++ u = (ratRender y).data ++ v) : x = y ∧ u = v := by
  obtain ⟨ha, hb⟩ := digitrun_prefix_cancel _ _ (ratRender_digitish x)
    (ratRender_digitish y) hu hv h
  exact ⟨ratRender_inj (String.ext ha), hb⟩

lemma stableStringify_obj (fs : List (String × JValue)) :
    stableStringify (.obj fs) =
      "\x7b" ++ joinComma ((sortKeys (fs.map Prod.fst)).map
        (fun k => strRender k ++ ":" ++ stableStringify ((lookupField fs k).getD JValue.null)))
      ++ "\x7d" := by
  simp only [stableStringify]
  rw [List.attach_map_val
    ((sortKeys (fs.map Prod.fst)).map (fun k => (k, (lookupField fs k).getD JValue.null)))
    (fun p => strRender p.1 ++ ":" ++ stableStringify p.2), List.map_map]
  rfl

lemma lookupField_perm {fs1 fs2 : List (String × JValue)} (h : fs1.Perm fs2)
    (hnd : (fs1.map Prod.fst).Nodup) (k : String) :
    lookupField fs1 k = lookupField fs2 k := by
  induction h with
  | nil => rfl
  | cons p hp ih =>
    rename_i l1 l2
    obtain ⟨k2, v⟩ := p
    by_cases hk : k2 = k
    · simp [lookupField, hk]
    · simp only [lookupField, if_neg hk]
      exact ih (by simpa using (List.nodup_cons.mp (by simpa using hnd)).2)
  | swap p q l =>
    obtain ⟨k1, v1⟩ := p
    obtain ⟨k2, v2⟩ := q
    have hne : k2 ≠ k1 := by
      have := hnd
      simp only [List.map_cons, List.nodup_cons, List.mem_cons] at this
      exact fun hc => this.1 (Or.inl hc)
    by_cases h1 : k1 = k
    · have h2 : ¬ k2 = k := fun hc => hne (hc.trans h1.symm)
      simp [lookupField, h1, h2]
    · by_cases h2 : k2 = k
      · simp [lookupField, h1, h2]
      · simp [lookupField, h1, h2]
  | trans h1 h2 ih1 ih2 =>
    rename_i l1 l2 l3
    have hnd2 : (l2.map Prod.fst).Nodup := ((h1.map Prod.fst).nodup_iff).mp hnd
    exact (ih1 hnd).trans (ih2 hnd2)

lemma stableStringify_perm_obj {fs1 fs2 : List (String × JValue)} (h : fs1.Perm fs2)
    (hnd : (fs1.map Prod.fst).Nodup) :
    stableStringify (.obj fs1) = stableStringify (.obj fs2) := by
  rw [stableStringify_obj, stableStringify_obj]
  have hkeys : sortKeys (fs2.map Prod.fst) = sortKeys (fs1.map Prod.fst) :=
    (sortKeys_eq_of_perm (h.map Prod.fst)).symm
  rw [hkeys]
  have hfun : (fun k => strRender k ++ ":" ++
      stableStringify ((lookupField fs1 k).getD JValue.null)) =
      (fun k => strRender k ++ ":" ++
        stableStringify ((lookupField fs2 k).getD JValue.null)) :=
    funext fun k => by rw [lookupField_perm h hnd k]
  rw [hfun]

/-- An assignment of the six numeric thresholds of the default pattern
set. -/
structure Thresholds where
  erMax : Rat
  erFinal : Rat
  lvHigh : Rat
  lvLow : Rat
  pfFinal : Rat
  pfDd : Rat
deriving Repr, DecidableEq, Inhabited

/-- A raw pattern-config object overriding all six thresholds, with the
params keys in the default insertion order. -/
def rawOfThresholds (t : Thresholds) : JValue :=
  .obj [("patterns", .obj [
    ("extremeReversal", .obj [("params", .obj
      [("maxPriceThreshold", .num t.erMax), ("finalPriceThreshold", .num t.erFinal)])]),
    ("lateVolatility", .obj [("params", .obj
      [("highThreshold", .num t.lvHigh), ("lowThreshold", .num t.lvLow)])]),
    ("peacefulFinish", .obj [("params", .obj
      [("finalPriceThreshold", .num t.pfFinal), ("maxDrawdownAbsThreshold", .num t.pfDd)])])])]

lemma ss_num (q : Rat) : stableStringify (.num q) = ratRender q := by
  simp [stableStringify]

lemma ss_str (s : String) : stableStringify (.str s) = strRender s := by
  simp [stableStringify]

lemma ss_bool (b : Bool) : stableStringify (.bool b) = if b then "true" else "false" := by
  simp [stableStringify]

lemma sortKeys_top : sortKeys ["patternSetVersion", "patterns"]
    = ["patternSetVersion", "patterns"] := by decide

lemma sortKeys_pats : sortKeys ["extremeReversal", "lateVolatility", "peacefulFinish"]
    = ["extremeReversal", "lateVolatility", "peacefulFinish"] := by decide

lemma sortKeys_entry : sortKeys ["enabled", "params"] = ["enabled", "params"] := by decide

lemma sortKeys_er : sortKeys ["maxPriceThreshold", "finalPriceThreshold"]
    = ["finalPriceThreshold", "maxPriceThreshold"] := by decide

lemma sortKeys_lv : sortKeys ["highThreshold", "lowThreshold"]
    = ["highThreshold", "lowThreshold"] := by decide

lemma sortKeys_pf : sortKeys ["finalPriceThreshold", "maxDrawdownAbsThreshold"]
    = ["finalPriceThreshold", "maxDrawdownAbsThreshold"] := by decide

lemma normalize_rawOfThresholds (t : Thresholds) :
    normalizePatternConfig (rawOfThresholds t) =
      .obj [("patternSetVersion", .str "1"),
            ("patterns", .obj [
              ("extremeReversal", .obj [("enabled", .bool true),
                ("params", .obj [("maxPriceThreshold", .num t.erMax),
                  ("finalPriceThreshold", .num t.erFinal)])]),
              ("lateVolatility", .obj [("enabled", .bool true),
                ("params", .obj [("highThreshold", .num t.lvHigh),
                  ("lowThreshold", .num t.lvLow)])]),
              ("peacefulFinish", .obj [("enabled", .bool true),
                ("params", .obj [("finalPriceThreshold", .num t.pfFinal),
                  ("maxDrawdownAbsThreshold", .num t.pfDd)])])])] := by
  simp [normalizePatternConfig, normalizeEntry, rawOfThresholds, jGet, spreadFields,
    lookupField, jIsObjLike, objMerge, defaultParams, PATTERN_PRIORITY, PatternId.key]

lemma serialize_thresholds_inj {t1 t2 : Thresholds}
    (h : stableStringify (normalizePatternConfig (rawOfThresholds t1)) =
      stableStringify (normalizePatternConfig (rawOfThresholds t2))) : t1 = t2 := by
  rw [normalize_rawOfThresholds, normalize_rawOfThresholds] at h
  simp [stableStringify_obj, sortKeys_top, sortKeys_pats, sortKeys_entry, sortKeys_er,
    sortKeys_lv, sortKeys_pf, lookupField, ss_num, ss_str, ss_bool, joinComma,
    strRender, escapeChar, String.join] at h
  have hd := congrArg String.data h
  simp only [String.data_append] at hd
  simp at hd
  obtain ⟨he1, hd⟩ := render_cancel (headNotDigitish_cons (by decide))
    (headNotDigitish_cons (by decide)) hd
  simp only [List.cons.injEq, true_and] at hd
  obtain ⟨he2, hd⟩ := render_cancel (headNotDigitish_cons (by decide))
    (headNotDigitish_cons (by decide)) hd
  simp only [List.cons.injEq, true_and] at hd
  obtain ⟨he3, hd⟩ := render_cancel (headNotDigitish_cons (by decide))
    (headNotDigitish_cons (by decide)) hd
  simp only [List.cons.injEq, true_and] at hd
  obtain ⟨he4, hd⟩ := render_cancel (headNotDigitish_cons (by decide))
    (headNotDigitish_cons (by decide)) hd
  simp only [List.cons.injEq, true_and] at hd
  obtain ⟨he5, hd⟩ := render_cancel (headNotDigitish_cons (by decide))
    (headNotDigitish_cons (by decide)) hd
  simp only [List.cons.injEq, true_and] at hd
  obtain ⟨he6, hd⟩ := render_cancel (headNotDigitish_cons (by decide))
    (headNotDigitish_cons (by decide)) hd
  calc t1 = ⟨t1.erMax, t1.erFinal, t1.lvHigh, t1.lvLow, t1.pfFinal, t1.pfDd⟩ := rfl
    _ = ⟨t2.erMax, t2.erFinal, t2.lvHigh, t2.lvLow, t2.pfFinal, t2.pfDd⟩ := by
        rw [he1, he2, he3, he4, he5, he6]
    _ = t2 := rfl

/-- A raw pattern-config object supplying the extremeReversal `params`
object with a given key insertion order. -/
def rawWithERParams (ps : List (String × JValue)) : JValue :=
  .obj [("patterns", .obj [("extremeReversal", .obj [("params", .obj ps)])])]

lemma normalize_rawWithERParams (ps : List (String × JValue)) :
    normalizePatternConfig (rawWithERParams ps) =
      .obj [("patternSetVersion", .str "1"),
            ("patterns", .obj [
              ("extremeReversal", .obj [("enabled", .bool true),
                ("params", .obj (objMerge (defaultParams .extremeReversal) ps))]),
              ("lateVolatility", .obj [("enabled", .bool true),
                ("params", .obj (defaultParams .lateVolatility))]),
              ("peacefulFinish", .obj [("enabled", .bool true),
                ("params", .obj (defaultParams .peacefulFinish))])])] := by
  simp [normalizePatternConfig, normalizeEntry, rawWithERParams, jGet, spreadFields,
    lookupField, jIsObjLike, PATTERN_PRIORITY, PatternId.key]

lemma lookupField_eq_none_iff (l : List (String × JValue)) (k : String) :
    lookupField l k = none ↔ k ∉ l.map Prod.fst := by
  induction l with
  | nil => simp [lookupField]
  | cons p rest ih =>
    obtain ⟨k2, v⟩ := p
    by_cases h : k2 = k
    · subst h
      simp [lookupField]
    · have hk : ¬ k = k2 := fun hc => h hc.symm
      simp only [lookupField, if_neg h, List.map_cons, List.mem_cons, hk, false_or]
      exact ih

lemma objMerge_perm {ps1 ps2 : List (String × JValue)} (h : ps1.Perm ps2)
    (hnd : (ps1.map Prod.fst).Nodup) (d : List (String × JValue)) :
    (objMerge d ps1).Perm (objMerge d ps2) := by
  unfold objMerge
  have hbase : d.map (fun p => (p.1, (lookupField ps1 p.1).getD p.2)) =
      d.map (fun p => (p.1, (lookupField ps2 p.1).getD p.2)) := by
    apply List.map_congr_left
    intro p _
    rw [lookupField_perm h hnd p.1]
  rw [hbase]
  exact List.Perm.append_left _ (h.filter _)

lemma objMerge_keys (d ps : List (String × JValue)) :
    (objMerge d ps).map Prod.fst =
      d.map Prod.fst ++ (ps.filter (fun p => (lookupField d p.1).isNone)).map Prod.fst := by
  unfold objMerge
  rw [List.map_append, List.map_map]
  rfl

lemma objMerge_keys_nodup (d ps : List (String × JValue))
    (hd : (d.map Prod.fst).Nodup) (hps : (ps.map Prod.fst).Nodup) :
    ((objMerge d ps).map Prod.fst).Nodup := by
  rw [objMerge_keys]
  apply List.Nodup.append hd
  · exact ((List.filter_sublist ps).map Prod.fst).nodup hps
  · intro x hx hxf
    rcases List.mem_map.mp hxf with ⟨p, hp, rfl⟩
    have hpred := (List.mem_filter.mp hp).2
    have : lookupField d p.1 = none := by
      cases hcase : lookupField d p.1
      · rfl
      · rw [hcase] at hpred; cases hpred
    exact (lookupField_eq_none_iff d p.1).mp this hx

lemma stableStringify_obj_congr {fs1 fs2 : List (String × JValue)}
    (hkeys : fs1.map Prod.fst = fs2.map Prod.fst)
    (hlook : ∀ k, stableStringify ((lookupField fs1 k).getD JValue.null) =
      stableStringify ((lookupField fs2 k).getD JValue.null)) :
    stableStringify (.obj fs1) = stableStringify (.obj fs2) := by
  rw [stableStringify_obj, stableStringify_obj, hkeys]
  have hfun : (fun k => strRender k ++ ":" ++
      stableStringify ((lookupField fs1 k).getD JValue.null)) =
      (fun k => strRender k ++ ":" ++
        stableStringify ((lookupField fs2 k).getD JValue.null)) :=
    funext fun k => by rw [hlook k]
  rw [hfun]

lemma serialize_params_perm {ps1 ps2 : List (String × JValue)} (h : ps1.Perm ps2)
    (hnd : (ps1.map Prod.fst).Nodup) :
    stableStringify (normalizePatternConfig (rawWithERParams ps1)) =
      stableStringify (normalizePatternConfig (rawWithERParams ps2)) := by
  rw [normalize_rawWithERParams, normalize_rawWithERParams]
  have hinner := stableStringify_perm_obj (objMerge_perm h hnd (defaultParams .extremeReversal))
    (objMerge_keys_nodup _ _ (by decide) hnd)
  refine stableStringify_obj_congr ?_ ?_
  · rfl
  intro k
  simp only [lookupField]
  split
  · rfl
  · split
    · simp only [Option.getD_some]
      refine stableStringify_obj_congr ?_ ?_
      · rfl
      intro k2
      simp only [lookupField]
      split
      · simp only [Option.getD_some]
        refine stableStringify_obj_congr ?_ ?_
        · rfl
        intro k3
        simp only [lookupField]
        split
        · rfl
        · split
          · simpa only [Option.getD_some] using hinner
          · rfl
      · rfl
    · rfl

/-- C7: the canonical serialization of the normalized config is independent
of the key insertion order of a supplied params object (so equal-content
configs get equal content hashes), and two normalized configs that differ
in at least one of the six threshold values serialize differently (so their
hashes differ). -/
theorem stableStringify_config_hash :
    (∀ ps1 ps2 : List (String × JValue), ps1.Perm ps2 → (ps1.map Prod.fst).Nodup →
      stableStringify (normalizePatternConfig (rawWithERParams ps1)) =
        stableStringify (normalizePatternConfig (rawWithERParams ps2))) ∧
    (∀ t1 t2 : Thresholds, t1 ≠ t2 →
      stableStringify (normalizePatternConfig (rawOfThresholds t1)) ≠
        stableStringify (normalizePatternConfig (rawOfThresholds t2))) :=
  ⟨fun _ _ h hnd => serialize_params_perm h hnd,
   fun _ _ hne hser => hne (serialize_thresholds_inj hser)⟩

/-- Two extra params bindings in one insertion order. -/
def c7ps1 : List (String × JValue) := [("alpha", .num 1), ("beta", .num 2)]

/-- The same bindings in the opposite insertion order. -/
def c7ps2 : List (String × JValue) := [("beta", .num 2), ("alpha", .num 1)]

/-- A concrete choice of the six thresholds. -/
def c7t1 : Thresholds := ⟨1, 1, 1, 1, 1, 1⟩

/-- The same thresholds with one value changed. -/
def c7t2 : Thresholds := ⟨1, 1, 1, 1, 1, 2⟩

/-- Witness for C7 at concrete inputs: reordered params yield the same
serialization, and changing one threshold changes it. -/
theorem stableStringify_config_hash_witness :
    (c7ps1.Perm c7ps2 ∧ (c7ps1.map Prod.fst).Nodup ∧
      stableStringify (normalizePatternConfig (rawWithERParams c7ps1)) =
        stableStringify (normalizePatternConfig (rawWithERParams c7ps2))) ∧
    (c7t1 ≠ c7t2 ∧
      stableStringify (normalizePatternConfig (rawOfThresholds c7t1)) ≠
        stableStringify (normalizePatternConfig (rawOfThresholds c7t2))) :=
  ⟨⟨by unfold c7ps1 c7ps2; exact List.Perm.swap _ _ _, by decide,
    stableStringify_config_hash.1 c7ps1 c7ps2
      (by unfold c7ps1 c7ps2; exact List.Perm.swap _ _ _) (by decide)⟩,
   ⟨by decide,
    stableStringify_config_hash.2 c7t1 c7t2 (by decide)⟩⟩

end PolyBtc
